import Mathlib

/-!
Verification of the abuse-reporter pipeline: a shallow embedding of
`src/ip-extractor.js`, `src/abuse-lookup.js` and `src/email-generator.js`.

Regular expressions from the source are embedded with a small ordered
backtracking engine (`RE` / `reMatch`) whose alternation is left-biased and
whose quantifiers are greedy or lazy exactly as in JavaScript.  `reMatch`
returns the list of possible matches in JavaScript's backtracking priority
order, so taking the head of the list gives the JavaScript match.  Global
matching (`String.match` with the `g` flag) is embedded by `scanAux`, which
walks the string left to right, records the first match at each position and
resumes after it.

The asynchronous lookup code is embedded as a state machine with an explicit
millisecond clock: `LState` carries the cache, the `lastWhoisQuery` timestamp
and the current time; the external `whois` process is an oracle `Env` giving
each query's outcome and duration; `setTimeout` advances the clock by exactly
the requested amount.  Every externally visible action is recorded in a trace
of `Event`s.
-/

namespace AbuseReporter

/-- JavaScript's word characters for `\b`: `[A-Za-z0-9_]`. -/
def isWordChar (c : Char) : Bool :=
  (65 ≤ c.toNat && c.toNat ≤ 90) || (97 ≤ c.toNat && c.toNat ≤ 122) ||
  (48 ≤ c.toNat && c.toNat ≤ 57) || c = '_'

/-- `lo.toNat ≤ c.toNat ≤ hi.toNat`: a regex character range such as `[0-9]`. -/
def chBetween (lo hi c : Char) : Bool :=
  lo.toNat ≤ c.toNat && c.toNat ≤ hi.toNat

/-- Regular expressions, shallow syntax.  Character classes are predicates;
bounded repetition is unfolded by the builders below, and the unbounded
`*` / `*?` over a character class are primitives. -/
inductive RE where
  | cls (p : Char → Bool)
  | eps
  | wordB
  | cat (a b : RE)
  | alt (a b : RE)
  | starG (p : Char → Bool)
  | starL (p : Char → Bool)

/-- Is there a `\b` word boundary between the previous character and the
start of `s`?  Out-of-bounds counts as a non-word character. -/
def boundaryB (prev : Option Char) (s : List Char) : Bool :=
  (match prev with | some c => isWordChar c | none => false) !=
  (match s.head? with | some c => isWordChar c | none => false)

/-- Greedy `p*`: all splits, longest first.  Each result is
(consumed, last character consumed (or the incoming one), remainder). -/
def starGAux (p : Char → Bool) : Option Char → List Char →
    List (List Char × Option Char × List Char)
  | prev, [] => [([], prev, [])]
  | prev, c :: rest =>
    if p c then
      ((starGAux p (some c) rest).map fun x => (c :: x.1, x.2.1, x.2.2)) ++
        [([], prev, c :: rest)]
    else [([], prev, c :: rest)]

/-- Lazy `p*?`: all splits, shortest first. -/
def starLAux (p : Char → Bool) : Option Char → List Char →
    List (List Char × Option Char × List Char)
  | prev, [] => [([], prev, [])]
  | prev, c :: rest =>
    ([], prev, c :: rest) ::
      (if p c then (starLAux p (some c) rest).map fun x => (c :: x.1, x.2.1, x.2.2)
       else [])

/-- All ways `re` can match a front part of `s`, in JavaScript backtracking
priority order.  Each result is (consumed, last consumed character, rest). -/
def reMatch : RE → Option Char → List Char →
    List (List Char × Option Char × List Char)
  | .cls _, _, [] => []
  | .cls p, _, c :: rest => if p c then [([c], some c, rest)] else []
  | .eps, prev, s => [([], prev, s)]
  | .wordB, prev, s => if boundaryB prev s then [([], prev, s)] else []
  | .cat a b, prev, s =>
    (reMatch a prev s).flatMap fun x =>
      (reMatch b x.2.1 x.2.2).map fun y => (x.1 ++ y.1, y.2.1, y.2.2)
  | .alt a b, prev, s => reMatch a prev s ++ reMatch b prev s
  | .starG p, prev, s => starGAux p prev s
  | .starL p, prev, s => starLAux p prev s

/-- `a` exactly `n` times. -/
def repExact (a : RE) : Nat → RE
  | 0 => .eps
  | n + 1 => .cat a (repExact a n)

/-- `a{0,n}`, greedy (more repetitions preferred, as in JavaScript). -/
def repMax (a : RE) : Nat → RE
  | 0 => .eps
  | n + 1 => .alt (.cat a (repMax a n)) .eps

/-- `a{m,n}`, greedy. -/
def repRange (a : RE) (m n : Nat) : RE := .cat (repExact a m) (repMax a (n - m))

/-- `a?`, greedy. -/
def optRE (a : RE) : RE := .alt a .eps

/-- A single literal character. -/
def chrRE (c : Char) : RE := .cls fun x => x = c

/-- A character range such as `[0-5]`. -/
def rngRE (lo hi : Char) : RE := .cls (chBetween lo hi)

/-- `p+`, greedy (`p` once, then greedy `p*`). -/
def plusG (p : Char → Bool) : RE := .cat (.cls p) (.starG p)

/-- A case-insensitive literal character, as under the `/i` flag: for a
letter the two cases, anything else exact. -/
def ciChr (c : Char) : RE :=
  if 97 ≤ c.toNat && c.toNat ≤ 122 then
    .cls fun x => x = c || x.toNat = c.toNat - 32
  else if 65 ≤ c.toNat && c.toNat ≤ 90 then
    .cls fun x => x = c || x.toNat = c.toNat + 32
  else chrRE c

/-- A case-insensitive literal string. -/
def ciStr (s : String) : RE := s.data.foldr (fun c acc => .cat (ciChr c) acc) .eps

/-- Global scanning as in JavaScript `String.match` with `/g`: at each
position try the first match; on success record it and resume after it,
otherwise advance one character.  Fueled; `s.length + 1` fuel is enough. -/
def scanAux (r : RE) : Nat → Option Char → List Char → List (List Char)
  | 0, _, _ => []
  | _ + 1, _, [] => []
  | fuel + 1, prev, c :: rest =>
    match (reMatch r prev (c :: rest)).head? with
    | some x =>
      if x.1.isEmpty then scanAux r fuel (some c) rest
      else x.1 :: scanAux r fuel x.2.1 x.2.2
    | none => scanAux r fuel (some c) rest

/-- All matches of `r` in `s`, left to right, non-overlapping. -/
def scanRE (r : RE) (s : String) : List String :=
  (scanAux r (s.data.length + 1) none s.data).map String.mk

/-! ## `src/ip-extractor.js` -/

/-- One IPv4 octet: `(?:25[0-5]|2[0-4][0-9]|[01]?[0-9][0-9]?)`. -/
def octetRE : RE :=
  .alt (.cat (chrRE '2') (.cat (chrRE '5') (rngRE '0' '5')))
    (.alt (.cat (chrRE '2') (.cat (rngRE '0' '4') (rngRE '0' '9')))
      (.cat (optRE (.cls fun c => c = '0' || c = '1'))
        (.cat (rngRE '0' '9') (optRE (rngRE '0' '9')))))

/-- `IPV4_REGEX`: `\b(?:octet\.){3}octet\b`. -/
def IPV4_REGEX : RE :=
  .cat .wordB
    (.cat (repExact (.cat octetRE (chrRE '.')) 3) (.cat octetRE .wordB))

/-- The hex-digit class `[0-9a-fA-F]`. -/
def hexB (c : Char) : Bool :=
  chBetween '0' '9' c || chBetween 'a' 'f' c || chBetween 'A' 'F' c

/-- `[0-9a-fA-F]{1,4}`, one hex group. -/
def hgRE : RE := repRange (.cls hexB) 1 4

/-- `[0-9a-fA-F]{1,4}:`. -/
def segRE : RE := .cat hgRE (chrRE ':')

/-- `:[0-9a-fA-F]{1,4}`. -/
def colonHgRE : RE := .cat (chrRE ':') hgRE

/-- `(?:(?:25[0-5]|2[0-4][0-9]|[01]?[0-9][0-9]?)\.){3}(?:...)`, the dotted
quad used in the embedded-IPv4 IPv6 alternative. -/
def ipv4BodyRE : RE := .cat (repExact (.cat octetRE (chrRE '.')) 3) octetRE

/-- `[fF]{4}:`. -/
def ffffSegRE : RE :=
  .cat (.cls fun c => c = 'f' || c = 'F')
    (.cat (.cls fun c => c = 'f' || c = 'F')
      (.cat (.cls fun c => c = 'f' || c = 'F')
        (.cat (.cls fun c => c = 'f' || c = 'F') (chrRE ':'))))

/-- `IPV6_REGEX`: the ten alternatives of the source pattern, in order.
`\b(?:h:){7}h\b | \b(?:h:){1,7}:\b | \b(?:h:){1,6}:h\b |
\b(?:h:){1,5}(?::h){1,2}\b | \b(?:h:){1,4}(?::h){1,3}\b |
\b(?:h:){1,3}(?::h){1,4}\b | \b(?:h:){1,2}(?::h){1,5}\b |
\bh:(?::h){1,6}\b | \b:(?::h){1,7}\b |
\b::(?:[fF]{4}:)?dottedquad\b` where `h` is `[0-9a-fA-F]{1,4}`. -/
def IPV6_REGEX : RE :=
  .alt (.cat .wordB (.cat (repExact segRE 7) (.cat hgRE .wordB)))
    (.alt (.cat .wordB (.cat (repRange segRE 1 7) (.cat (chrRE ':') .wordB)))
      (.alt (.cat .wordB (.cat (repRange segRE 1 6)
          (.cat (chrRE ':') (.cat hgRE .wordB))))
        (.alt (.cat .wordB (.cat (repRange segRE 1 5)
            (.cat (repRange colonHgRE 1 2) .wordB)))
          (.alt (.cat .wordB (.cat (repRange segRE 1 4)
              (.cat (repRange colonHgRE 1 3) .wordB)))
            (.alt (.cat .wordB (.cat (repRange segRE 1 3)
                (.cat (repRange colonHgRE 1 4) .wordB)))
              (.alt (.cat .wordB (.cat (repRange segRE 1 2)
                  (.cat (repRange colonHgRE 1 5) .wordB)))
                (.alt (.cat .wordB (.cat hgRE (.cat (chrRE ':')
                    (.cat (repRange colonHgRE 1 6) .wordB))))
                  (.alt (.cat .wordB (.cat (chrRE ':')
                      (.cat (repRange colonHgRE 1 7) .wordB)))
                    (.cat .wordB (.cat (chrRE ':') (.cat (chrRE ':')
                      (.cat (optRE ffffSegRE) (.cat ipv4BodyRE .wordB)))))))))))))

/-- `extractIPs(line)`: IPv4 matches first, then IPv6 matches. -/
def extractIPs (line : String) : List String :=
  scanRE IPV4_REGEX line ++ scanRE IPV6_REGEX line

/-- `/^10\./`. -/
def test10 (m : String) : Bool :=
  match m.data with
  | '1' :: '0' :: '.' :: _ => true
  | _ => false

/-- `/^172\.(1[6-9]|2[0-9]|3[0-1])\./`. -/
def test172 (m : String) : Bool :=
  match m.data with
  | '1' :: '7' :: '2' :: '.' :: b1 :: b2 :: '.' :: _ =>
    (b1 = '1' && chBetween '6' '9' b2) || (b1 = '2' && chBetween '0' '9' b2) ||
      (b1 = '3' && chBetween '0' '1' b2)
  | _ => false

/-- `/^192\.168\./`. -/
def test192168 (m : String) : Bool :=
  match m.data with
  | '1' :: '9' :: '2' :: '.' :: '1' :: '6' :: '8' :: '.' :: _ => true
  | _ => false

/-- `/^127\./`. -/
def test127 (m : String) : Bool :=
  match m.data with
  | '1' :: '2' :: '7' :: '.' :: _ => true
  | _ => false

/-- `/^169\.254\./`. -/
def test169254 (m : String) : Bool :=
  match m.data with
  | '1' :: '6' :: '9' :: '.' :: '2' :: '5' :: '4' :: '.' :: _ => true
  | _ => false

/-- `/^0\./`. -/
def test0 (m : String) : Bool :=
  match m.data with
  | '0' :: '.' :: _ => true
  | _ => false

/-- `/^100\.(6[4-9]|[7-9][0-9]|1[0-1][0-9]|12[0-7])\./`: the second octet is
either a two-digit branch followed by `.` or a three-digit branch followed
by `.`. -/
def test100 (m : String) : Bool :=
  match m.data with
  | '1' :: '0' :: '0' :: '.' :: b1 :: b2 :: '.' :: _ =>
    (b1 = '6' && chBetween '4' '9' b2) || (chBetween '7' '9' b1 && chBetween '0' '9' b2)
  | '1' :: '0' :: '0' :: '.' :: b1 :: b2 :: b3 :: '.' :: _ =>
    (b1 = '1' && chBetween '0' '1' b2 && chBetween '0' '9' b3) ||
      (b1 = '1' && b2 = '2' && chBetween '0' '7' b3)
  | _ => false

/-- `/^::1$/i`. -/
def testLoop6 (m : String) : Bool := m.data = [':', ':', '1']

/-- `/^fe80:/i`. -/
def testFe80 (m : String) : Bool :=
  match m.data with
  | c1 :: c2 :: c3 :: c4 :: c5 :: _ =>
    (c1 = 'f' || c1 = 'F') && (c2 = 'e' || c2 = 'E') && c3 = '8' && c4 = '0' && c5 = ':'
  | _ => false

/-- `/^fc00:/i`. -/
def testFc00 (m : String) : Bool :=
  match m.data with
  | c1 :: c2 :: c3 :: c4 :: c5 :: _ =>
    (c1 = 'f' || c1 = 'F') && (c2 = 'c' || c2 = 'C') && c3 = '0' && c4 = '0' && c5 = ':'
  | _ => false

/-- `/^fd[0-9a-f]{2}:/i` (under `/i`, `[0-9a-f]` also matches `A-F`). -/
def testFd (m : String) : Bool :=
  match m.data with
  | c1 :: c2 :: c3 :: c4 :: c5 :: _ =>
    (c1 = 'f' || c1 = 'F') && (c2 = 'd' || c2 = 'D') && hexB c3 && hexB c4 && c5 = ':'
  | _ => false

/-- `isPrivateIP(ip)`: the IPv4 private-range tests then the IPv6 tests,
in source order. -/
def isPrivateIP (ip : String) : Bool :=
  test10 ip || test172 ip || test192168 ip || test127 ip || test169254 ip ||
    test0 ip || test100 ip ||
    testLoop6 ip || testFe80 ip || testFc00 ip || testFd ip

/-- Association-list lookup, modelling JavaScript `Map.get`. -/
def mfind {α : Type} (m : List (String × α)) (k : String) : Option α :=
  (m.find? fun e => e.1 = k).map (·.2)

/-- JavaScript `Map.set`: replace in place if the key exists, else append. -/
def mapSet {α : Type} : List (String × α) → String → α → List (String × α)
  | [], k, v => [(k, v)]
  | e :: rest, k, v =>
    if e.1 = k then (k, v) :: rest else e :: mapSet rest k v

/-- The `if (!m.has(k)) m.set(k, []); m.get(k).push(v)` idiom: append `v` to
the list at `k`, creating the entry at the end on first sight. -/
def mapPush {α : Type} : List (String × List α) → String → α → List (String × List α)
  | [], k, v => [(k, [v])]
  | e :: rest, k, v =>
    if e.1 = k then (e.1, e.2 ++ [v]) :: rest else e :: mapPush rest k v

/-- `buildIPLogMap(lines)`: for each line, for each extracted address that is
not private, append the line to that address's entry. -/
def buildIPLogMap (lines : List String) : List (String × List String) :=
  lines.foldl
    (fun m line =>
      (extractIPs line).foldl
        (fun m ip => if isPrivateIP ip then m else mapPush m ip line) m)
    []

/-! ## `src/abuse-lookup.js`: WHOIS output parsing

Each extraction pattern in the source has exactly one capture group, so a
pattern is embedded as a triple `(a, b, c)` of regexes — before the group,
the group, after the group — and `searchCap` implements JavaScript
`String.match` (no `g` flag): the leftmost position at which the whole
pattern matches, returning what the group consumed there. -/

/-- At this position: the first full match of `a` then `b` then `c` in
backtracking order, returning `b`'s consumed characters. -/
def matchCapAt (a b c : RE) (prev : Option Char) (s : List Char) :
    Option (List Char) :=
  (reMatch a prev s).findSome? fun x =>
    (reMatch b x.2.1 x.2.2).findSome? fun y =>
      (reMatch c y.2.1 y.2.2).head?.map fun _ => y.1

/-- Leftmost match of `a(b)c` in `s`, returning the group's text. -/
def searchCap (a b c : RE) : Option Char → List Char → Option (List Char)
  | prev, [] => matchCapAt a b c prev []
  | prev, ch :: rest =>
    match matchCapAt a b c prev (ch :: rest) with
    | some r => some r
    | none => searchCap a b c (some ch) rest

/-- JavaScript `\s` (ASCII part). -/
def wsB (c : Char) : Bool :=
  c = ' ' || c = '\t' || c = '\n' || c = '\r' || c.toNat = 11 || c.toNat = 12

/-- JavaScript `.`: any character except a line terminator. -/
def dotAnyB (c : Char) : Bool := !(c = '\n' || c = '\r')

/-- The email local-part class `[a-zA-Z0-9._%+-]`. -/
def localClsB (c : Char) : Bool :=
  chBetween 'a' 'z' c || chBetween 'A' 'Z' c || chBetween '0' '9' c ||
    c = '.' || c = '_' || c = '%' || c = '+' || c = '-'

/-- The email domain class `[a-zA-Z0-9.-]`. -/
def domClsB (c : Char) : Bool :=
  chBetween 'a' 'z' c || chBetween 'A' 'Z' c || chBetween '0' '9' c ||
    c = '.' || c = '-'

/-- `[a-zA-Z]`. -/
def alphaClsB (c : Char) : Bool := chBetween 'a' 'z' c || chBetween 'A' 'Z' c

/-- The email capture group shared by all five abuse patterns:
`[a-zA-Z0-9._%+-]+@[a-zA-Z0-9.-]+\.[a-zA-Z]{2,}`. -/
def emailRE : RE :=
  .cat (plusG localClsB)
    (.cat (chrRE '@')
      (.cat (plusG domClsB)
        (.cat (chrRE '.')
          (.cat (.cls alphaClsB) (.cat (.cls alphaClsB) (.starG alphaClsB))))))

/-- The five abuse-email patterns, in source order, as `(a, group, c)`:
`/abuse.*?(email)/i`, `/OrgAbuseEmail:\s*(email)/i`, `/RAbuseEmail:\s*(email)/i`,
`/abuse-mailbox:\s*(email)/i`, `/% Abuse contact for .* is '(email)'/i`. -/
def abusePatterns : List (RE × RE × RE) :=
  [ (.cat (ciStr "abuse") (.starL dotAnyB), emailRE, .eps),
    (.cat (ciStr "OrgAbuseEmail:") (.starG wsB), emailRE, .eps),
    (.cat (ciStr "RAbuseEmail:") (.starG wsB), emailRE, .eps),
    (.cat (ciStr "abuse-mailbox:") (.starG wsB), emailRE, .eps),
    (.cat (ciStr "% Abuse contact for ") (.cat (.starG dotAnyB) (ciStr " is '")),
      emailRE, chrRE '\'') ]

/-- `extractAbuseEmail(whoisOutput)`: split on newlines; for each line in
order try the patterns in order; the first group match, lower-cased. -/
def extractAbuseEmail (whoisOutput : String) : Option String :=
  (whoisOutput.splitOn "\n").findSome? fun line =>
    abusePatterns.findSome? fun pat =>
      (searchCap pat.1 pat.2.1 pat.2.2 none line.data).map fun cap =>
        String.mk (cap.map Char.toLower)

/-- A field pattern of the shape `/Name:\s*(.+)/i`, searched over the whole
document. -/
def fieldCap (name : String) (doc : String) : Option String :=
  (searchCap (.cat (ciStr name) (.starG wsB)) (plusG dotAnyB) .eps
      none doc.data).map fun cap => (String.mk cap).trim

/-- `extractOrgName(whoisOutput)`: `OrgName`, `org-name`, `Organization`,
`netname`, `descr`, first match wins, trimmed; default `"Unknown"`. -/
def extractOrgName (whoisOutput : String) : String :=
  (((fieldCap "OrgName:" whoisOutput).orElse fun _ =>
    (fieldCap "org-name:" whoisOutput).orElse fun _ =>
      (fieldCap "Organization:" whoisOutput).orElse fun _ =>
        (fieldCap "netname:" whoisOutput).orElse fun _ =>
          fieldCap "descr:" whoisOutput)).getD "Unknown"

/-- `extractNetRange(whoisOutput)`: `NetRange`, `inetnum`, `CIDR`. -/
def extractNetRange (whoisOutput : String) : Option String :=
  (fieldCap "NetRange:" whoisOutput).orElse fun _ =>
    (fieldCap "inetnum:" whoisOutput).orElse fun _ =>
      fieldCap "CIDR:" whoisOutput

/-- `/Country:\s*([A-Z]{2})/i` (both source patterns are identical under the
`i` flag): two letters, upper-cased. -/
def extractCountry (whoisOutput : String) : Option String :=
  (searchCap (.cat (ciStr "Country:") (.starG wsB))
      (.cat (.cls alphaClsB) (.cls alphaClsB)) .eps none whoisOutput.data).map
    fun cap => String.mk (cap.map Char.toUpper)

/-! ## `src/abuse-lookup.js`: cache, rate limiter, lookups -/

/-- The result object built by `lookupIP`.  On success `rawWhois` is the
stdout and `error` is absent; on failure `error` is the message and
`rawWhois` is absent. -/
structure WhoisRecord where
  ip : String
  abuseEmail : Option String
  orgName : String
  netRange : Option String
  country : Option String
  rawWhois : Option String
  error : Option String
deriving DecidableEq, Repr

/-- The external world: the outcome of `whois ip` (stdout, or the error
message of a timeout / non-zero exit / I/O failure), and how many
milliseconds the call takes. -/
structure Env where
  whois : String → Except String String
  queryDuration : String → Nat

/-- The module state: `whoisCache`, `lastWhoisQuery`, and the current value
of `Date.now()` in milliseconds. -/
structure LState where
  whoisCache : List (String × WhoisRecord)
  lastWhoisQuery : Nat
  now : Nat
deriving DecidableEq, Repr

/-- Externally visible actions of the lookup loop: a progress-callback
invocation `(ip, 1-based index, total)`, or the dispatch of an external
query at a given time. -/
inductive Event where
  | progress (ip : String) (idx total : Nat)
  | query (ip : String) (issuedAt : Nat)
deriving DecidableEq, Repr

/-- `rateLimitDelay()`: if less than `WHOIS_DELAY = 1000` ms elapsed since
`lastWhoisQuery`, suspend for the remainder; then set `lastWhoisQuery` to
the current time.  `setTimeout` advances the clock by exactly the requested
amount. -/
def rateLimitDelay (st : LState) : LState :=
  let elapsed := st.now - st.lastWhoisQuery
  if elapsed < 1000 then
    { st with now := st.now + (1000 - elapsed), lastWhoisQuery := st.now + (1000 - elapsed) }
  else
    { st with lastWhoisQuery := st.now }

/-- `lookupIP(ip)`: cache hit returns immediately; otherwise rate-limit,
dispatch `whois ip`, and cache either the parsed success record or the
failure record.  Returns (record, new state, events).  The Lean function is
total: every failure of the external call is converted into a record, so
the claim that `lookupIP` never raises is captured by totality. -/
def lookupIP (env : Env) (st : LState) (ip : String) :
    WhoisRecord × LState × List Event :=
  match mfind st.whoisCache ip with
  | some r => (r, st, [])
  | none =>
    let st1 := rateLimitDelay st
    match env.whois ip with
    | .ok stdout =>
      let r : WhoisRecord :=
        { ip := ip, abuseEmail := extractAbuseEmail stdout,
          orgName := extractOrgName stdout, netRange := extractNetRange stdout,
          country := extractCountry stdout, rawWhois := some stdout, error := none }
      (r, { whoisCache := mapSet st1.whoisCache ip r,
            lastWhoisQuery := st1.lastWhoisQuery,
            now := st1.now + env.queryDuration ip },
        [.query ip st1.lastWhoisQuery])
    | .error msg =>
      let r : WhoisRecord :=
        { ip := ip, abuseEmail := none, orgName := "Unknown", netRange := none,
          country := none, rawWhois := none, error := some msg }
      (r, { whoisCache := mapSet st1.whoisCache ip r,
            lastWhoisQuery := st1.lastWhoisQuery,
            now := st1.now + env.queryDuration ip },
        [.query ip st1.lastWhoisQuery])

/-- The loop body of `lookupIPs`: process the remaining addresses starting
at 0-based index `i`, returning the (ip, record) pairs in processing order,
the final state, and the event trace.  The progress callback is invoked
before `lookupIP` is awaited, exactly as in the source. -/
def lookupIPsGo (env : Env) (total : Nat) :
    List String → Nat → LState → List (String × WhoisRecord) × LState × List Event
  | [], _, st => ([], st, [])
  | ip :: rest, i, st =>
    let step := lookupIP env st ip
    let rec' := lookupIPsGo env total rest (i + 1) step.2.1
    ((ip, step.1) :: rec'.1, rec'.2.1,
      .progress ip (i + 1) total :: step.2.2 ++ rec'.2.2)

/-- `lookupIPs(ips, onProgress)`: sequential loop; the results map is built
with `results.set(ip, info)`. -/
def lookupIPs (env : Env) (ips : List String) (st : LState) :
    List (String × WhoisRecord) × LState × List Event :=
  let r := lookupIPsGo env ips.length ips 0 st
  (r.1.foldl (fun m p => mapSet m p.1 p.2) [], r.2.1, r.2.2)

/-- The grouping key of `groupByAbuseEmail`:
`info.abuseEmail || 'unknown@unknown'` — `null` and the empty string are
both falsy. -/
def groupKey (r : WhoisRecord) : String :=
  match r.abuseEmail with
  | none => "unknown@unknown"
  | some e => if e = "" then "unknown@unknown" else e

/-- `groupByAbuseEmail(whoisResults)`. -/
def groupByAbuseEmail (whoisResults : List (String × WhoisRecord)) :
    List (String × List WhoisRecord) :=
  whoisResults.foldl (fun groups e => mapPush groups (groupKey e.2) e.2) []

/-! ## `src/email-generator.js` -/

/-- The options object; absent fields take the source defaults at the use
sites. -/
structure GenOptions where
  senderEmail : Option String := none
  senderName : Option String := none
  senderOrg : Option String := none
  maxLogsPerIP : Option Nat := none

/-- An email object from `generateEmail`. -/
structure EmailMsg where
  «to» : String
  «from» : String
  subject : String
  body : String
  ips : List String
  generatedAt : String
deriving DecidableEq, Repr

/-- `generateSubject(ipInfos)`; `ipInfos[0]?.orgName || 'your network'`. -/
def generateSubject (ipInfos : List WhoisRecord) : String :=
  let orgName :=
    match ipInfos.head? with
    | some i => if i.orgName = "" then "your network" else i.orgName
    | none => "your network"
  match ipInfos with
  | [i] => "Abuse Report: Malicious activity from " ++ i.ip
  | _ =>
    "Abuse Report: Malicious activity from " ++ toString ipInfos.length ++
      " IPs in " ++ orgName

/-- A run of `n` copies of a character, for `'='.repeat(70)` and friends. -/
def repChar (c : Char) (n : Nat) : String := String.mk (List.replicate n c)

/-- The per-address block of `generateBody`. -/
def bodyBlock (ipLogMap : List (String × List String)) (maxLogsPerIP : Nat)
    (info : WhoisRecord) : List String :=
  [repChar '-' 70, "IP Address: " ++ info.ip] ++
    (match info.netRange with
     | some nr => ["Network Range: " ++ nr]
     | none => []) ++
    (match info.country with
     | some c => ["Country: " ++ c]
     | none => []) ++
    (if info.orgName ≠ "" && info.orgName ≠ "Unknown" then
      ["Organization: " ++ info.orgName]
     else []) ++
    [""] ++
    (let logs := (mfind ipLogMap info.ip).getD []
     let displayLogs := logs.take maxLogsPerIP
     if displayLogs.length > 0 then
       ["Relevant log entries:", ""] ++ displayLogs.map (fun log => "  " ++ log) ++
         (if logs.length > maxLogsPerIP then
           ["  ... and " ++ toString (logs.length - maxLogsPerIP) ++ " more entries"]
          else []) ++ [""]
     else [])

/-- `generateBody(ipInfos, ipLogMap, options)`.  `dateStr` is the value the
source reads from `new Date().toUTCString()`. -/
def generateBody (ipInfos : List WhoisRecord)
    (ipLogMap : List (String × List String)) (options : GenOptions)
    (dateStr : String) : String :=
  let senderOrg := options.senderOrg.getD "System Administrator"
  let maxLogsPerIP := options.maxLogsPerIP.getD 50
  String.intercalate "\n"
    ([ "Dear Abuse Team,", "",
       "We have detected malicious activity originating from IP address(es) under your administration.",
       "We kindly request that you investigate this matter and take appropriate action.",
       "", repChar '=' 70, "INCIDENT DETAILS", repChar '=' 70, "",
       "Report generated: " ++ dateStr,
       "Number of offending IPs: " ++ toString ipInfos.length, "" ] ++
      (ipInfos.flatMap fun info => bodyBlock ipLogMap maxLogsPerIP info) ++
      [ repChar '=' 70, "",
        "Please take appropriate action to address this issue. If you require",
        "additional information or log samples, please do not hesitate to contact us.",
        "",
        "Thank you for your cooperation in maintaining a safe internet environment.",
        "", "Best regards,", senderOrg ])

/-- `generateEmail(abuseEmail, ipInfos, ipLogMap, options)`.  `dateStr` and
`isoStr` are the two clock reads of the source. -/
def generateEmail (abuseEmail : String) (ipInfos : List WhoisRecord)
    (ipLogMap : List (String × List String)) (options : GenOptions)
    (dateStr isoStr : String) : EmailMsg :=
  { «to» := abuseEmail,
    «from» := options.senderName.getD "Abuse Reporter" ++ " <" ++
      options.senderEmail.getD "abuse@example.com" ++ ">",
    subject := generateSubject ipInfos,
    body := generateBody ipInfos ipLogMap options dateStr,
    ips := ipInfos.map (·.ip),
    generatedAt := isoStr }

/-- `generateAllEmails(abuseGroups, ipLogMap, options)`: one email per group,
in group order, skipping the `unknown@unknown` key entirely. -/
def generateAllEmails (abuseGroups : List (String × List WhoisRecord))
    (ipLogMap : List (String × List String)) (options : GenOptions)
    (dateStr isoStr : String) : List EmailMsg :=
  abuseGroups.foldl
    (fun emails g =>
      if g.1 = "unknown@unknown" then emails
      else emails ++ [generateEmail g.1 g.2 ipLogMap options dateStr isoStr])
    []

/-- The lines of `generateUnknownIPsSummary` for a non-empty unknown group. -/
def unknownSummaryLines (unknownGroup : List WhoisRecord) : List String :=
  [ repChar '=' 78, "IPs WITHOUT ABUSE CONTACT INFORMATION", repChar '=' 78, "",
    "The following IPs could not be matched to an abuse contact:", "" ] ++
    (unknownGroup.flatMap fun info =>
      ["  " ++ info.ip] ++
        (if info.orgName ≠ "" && info.orgName ≠ "Unknown" then
          ["    Organization: " ++ info.orgName]
         else []) ++
        (match info.error with
         | some e => ["    Error: " ++ e]
         | none => [])) ++
    ["", "You may need to manually look up abuse contacts for these IPs.", ""]

/-- `generateUnknownIPsSummary(abuseGroups)`: `null` when the
`unknown@unknown` bucket is absent or empty. -/
def generateUnknownIPsSummary (abuseGroups : List (String × List WhoisRecord)) :
    Option String :=
  match mfind abuseGroups "unknown@unknown" with
  | none => none
  | some unknownGroup =>
    if unknownGroup.length = 0 then none
    else some (String.intercalate "\n" (unknownSummaryLines unknownGroup))

/-- A concrete record whose abuse-contact field carries the literal
sentinel string `unknown@unknown`. -/
def sentinelRecord : WhoisRecord :=
  ⟨"1.2.3.4", some "unknown@unknown", "X", none, none, none, none⟩

/-! ## Semantic interpretation of address literals

These definitions are not part of the source; they give the numeric meaning
of an address string so that membership in the documented rule-table ranges
(`10/8`, `172.16/12`, `192.168/16`, `127/8`, `169.254/16`, `0/8`,
`100.64/10`; `::1`, `fe80::/10`, `fc00::/7`) can be stated about values
rather than about text. -/

/-- Split a character list at every occurrence of `sep`, keeping empty
pieces; the result is always non-empty. -/
def splitChar (sep : Char) : List Char → List (List Char)
  | [] => [[]]
  | c :: rest =>
    if c = sep then [] :: splitChar sep rest
    else
      match splitChar sep rest with
      | t :: ts => (c :: t) :: ts
      | [] => [[c]]

/-- `[0-9]`. -/
def isDigitCh (c : Char) : Bool := chBetween '0' '9' c

/-- The value of a decimal digit. -/
def digitVal (c : Char) : Nat := c.toNat - 48

/-- The value of a decimal digit string. -/
def decVal (t : List Char) : Nat := t.foldl (fun a c => a * 10 + digitVal c) 0

/-- An IPv4 octet: one to three decimal digits with value at most 255. -/
def octVal (t : List Char) : Option Nat :=
  if t ≠ [] ∧ t.length ≤ 3 ∧ t.all isDigitCh ∧ decVal t ≤ 255 then some (decVal t)
  else none

/-- Parse a dotted-quad IPv4 literal into its four octet values. -/
def parse4 (m : String) : Option (Nat × Nat × Nat × Nat) :=
  match splitChar '.' m.data with
  | [t1, t2, t3, t4] =>
    match octVal t1, octVal t2, octVal t3, octVal t4 with
    | some a, some b, some c, some d => some (a, b, c, d)
    | _, _, _, _ => none
  | _ => none

/-- The value of a hexadecimal digit. -/
def hexVal (c : Char) : Nat :=
  if chBetween '0' '9' c then c.toNat - 48
  else if chBetween 'a' 'f' c then c.toNat - 87
  else if chBetween 'A' 'F' c then c.toNat - 55
  else 0

/-- An IPv6 group: one to four hex digits. -/
def hexGroupVal (t : List Char) : Option Nat :=
  if t ≠ [] ∧ t.length ≤ 4 ∧ t.all hexB then
    some (t.foldl (fun a c => a * 16 + hexVal c) 0)
  else none

/-- Split at the first `::`, if any. -/
def splitDC : List Char → List Char × Option (List Char)
  | [] => ([], none)
  | [c] => ([c], none)
  | c1 :: c2 :: rest =>
    if c1 = ':' ∧ c2 = ':' then ([], some rest)
    else
      let r := splitDC (c2 :: rest)
      (c1 :: r.1, r.2)

/-- An embedded dotted quad as two 16-bit groups. -/
def v4Groups (t : List Char) : Option (Nat × Nat) :=
  (parse4 (String.mk t)).map fun q => (q.1 * 256 + q.2.1, q.2.2.1 * 256 + q.2.2.2)

/-- The groups denoted by a `:`-separated token list; an embedded dotted
quad is allowed only as the final token when `v4ok` is set. -/
def tokensToGroups (v4ok : Bool) : List (List Char) → Option (List Nat)
  | [] => some []
  | [t] =>
    match hexGroupVal t with
    | some g => some [g]
    | none => if v4ok then (v4Groups t).map fun p => [p.1, p.2] else none
  | t :: ts =>
    match hexGroupVal t, tokensToGroups v4ok ts with
    | some g, some gs => some (g :: gs)
    | _, _ => none

/-- The groups of one side of a `::`. -/
def sideGroups (v4ok : Bool) (cs : List Char) : Option (List Nat) :=
  tokensToGroups v4ok (splitChar ':' cs)

/-- Assemble a 128-bit value from 16-bit groups, most significant first. -/
def groupsVal (gs : List Nat) : Nat := gs.foldl (fun a g => a * 65536 + g) 0

/-- Parse an IPv6 literal (expanded, `::`-compressed, or with a trailing
embedded IPv4 part) into its 128-bit value. -/
def parse6 (m : String) : Option Nat :=
  match splitDC m.data with
  | (left, none) =>
    match sideGroups true left with
    | some gs => if gs.length = 8 then some (groupsVal gs) else none
    | none => none
  | (left, some right) =>
    match splitDC right with
    | (_, some _) => none
    | (_, none) =>
      match (if left.isEmpty then some [] else sideGroups false left),
            (if right.isEmpty then some [] else sideGroups true right) with
      | some gs1, some gs2 =>
        if gs1.length + gs2.length ≤ 7 then
          some (groupsVal (gs1 ++ List.replicate (8 - gs1.length - gs2.length) 0 ++ gs2))
        else none
      | _, _ => none

/-- Membership of four octet values in the documented IPv4 private ranges:
`10/8`, `172.16/12`, `192.168/16`, `127/8`, `169.254/16`, `0/8`,
`100.64/10`. -/
def in4 (q : Nat × Nat × Nat × Nat) : Prop :=
  q.1 = 10 ∨ (q.1 = 172 ∧ 16 ≤ q.2.1 ∧ q.2.1 ≤ 31) ∨ (q.1 = 192 ∧ q.2.1 = 168) ∨
    q.1 = 127 ∨ (q.1 = 169 ∧ q.2.1 = 254) ∨ q.1 = 0 ∨
    (q.1 = 100 ∧ 64 ≤ q.2.1 ∧ q.2.1 ≤ 127)

/-- Membership of a 128-bit value in the documented IPv6 ranges: `::1`,
`fe80::/10` (top ten bits `0x3fa`), `fc00::/7` (top seven bits `0x7e`). -/
def in6 (w : Nat) : Prop :=
  w = 1 ∨ w / 2 ^ 118 = 1018 ∨ w / 2 ^ 121 = 126

instance (q : Nat × Nat × Nat × Nat) : Decidable (in4 q) := by
  unfold in4; infer_instance

instance (w : Nat) : Decidable (in6 w) := by
  unfold in6; infer_instance

/-! ## Engine lemmas -/

theorem starGAux_append (p : Char → Bool) :
    ∀ prev s, ∀ x ∈ starGAux p prev s, x.1 ++ x.2.2 = s
  | _, [], x, hx => by
    simp only [starGAux, List.mem_singleton] at hx
    subst hx; rfl
  | prev, c :: rest, x, hx => by
    simp only [starGAux] at hx
    by_cases hp : p c
    · simp only [hp, if_pos, List.mem_append, List.mem_map,
        List.mem_singleton] at hx
      rcases hx with ⟨y, hy, rfl⟩ | rfl
      · simpa using congrArg (c :: ·) (starGAux_append p (some c) rest y hy)
      · rfl
    · simp only [hp, if_neg, Bool.false_eq_true, not_false_iff,
        List.mem_singleton] at hx
      subst hx; rfl

theorem starLAux_append (p : Char → Bool) :
    ∀ prev s, ∀ x ∈ starLAux p prev s, x.1 ++ x.2.2 = s
  | _, [], x, hx => by
    simp only [starLAux, List.mem_singleton] at hx
    subst hx; rfl
  | prev, c :: rest, x, hx => by
    simp only [starLAux, List.mem_cons] at hx
    rcases hx with rfl | hx
    · rfl
    · by_cases hp : p c
      · simp only [hp, if_pos, List.mem_map] at hx
        rcases hx with ⟨y, hy, rfl⟩
        simpa using congrArg (c :: ·) (starLAux_append p (some c) rest y hy)
      · simp [hp] at hx

/-- What a match consumes, followed by what it leaves, is the input. -/
theorem reMatch_append :
    ∀ (re : RE) (prev : Option Char) (s : List Char),
      ∀ x ∈ reMatch re prev s, x.1 ++ x.2.2 = s
  | .cls p, prev, s, x, hx => by
    cases s with
    | nil => simp [reMatch] at hx
    | cons c rest =>
      simp only [reMatch] at hx
      by_cases hp : p c
      · simp only [hp, if_pos, List.mem_singleton] at hx
        subst hx; rfl
      · simp [hp] at hx
  | .eps, prev, s, x, hx => by
    simp only [reMatch, List.mem_singleton] at hx
    subst hx; rfl
  | .wordB, prev, s, x, hx => by
    simp only [reMatch] at hx
    by_cases hb : boundaryB prev s
    · simp only [hb, if_pos, List.mem_singleton] at hx
      subst hx; rfl
    · simp [hb] at hx
  | .cat a b, prev, s, x, hx => by
    simp only [reMatch, List.mem_flatMap, List.mem_map] at hx
    rcases hx with ⟨y, hy, z, hz, rfl⟩
    have h1 := reMatch_append a prev s y hy
    have h2 := reMatch_append b y.2.1 y.2.2 z hz
    simp only [List.append_assoc, h2, h1]
  | .alt a b, prev, s, x, hx => by
    rcases List.mem_append.mp hx with h | h
    · exact reMatch_append a prev s x h
    · exact reMatch_append b prev s x h
  | .starG p, prev, s, x, hx => starGAux_append p prev s x hx
  | .starL p, prev, s, x, hx => starLAux_append p prev s x hx

/-- Every match produced by scanning is a contiguous piece of the input. -/
theorem scanAux_sublist (r : RE) :
    ∀ (fuel : Nat) (prev : Option Char) (s : List Char),
      ∀ m ∈ scanAux r fuel prev s, m <:+: s
  | 0, _, _, m, hm => by simp [scanAux] at hm
  | _ + 1, _, [], m, hm => by simp [scanAux] at hm
  | fuel + 1, prev, c :: rest, m, hm => by
    simp only [scanAux] at hm
    rcases hh : (reMatch r prev (c :: rest)).head? with _ | x
    · rw [hh] at hm
      exact (scanAux_sublist r fuel (some c) rest m hm).trans
        (List.suffix_cons c rest).isInfix
    · rw [hh] at hm
      have hxmem : x ∈ reMatch r prev (c :: rest) := by
        rcases hl : reMatch r prev (c :: rest) with _ | ⟨y, t⟩
        · rw [hl] at hh; simp at hh
        · rw [hl] at hh
          simp only [List.head?_cons, Option.some.injEq] at hh
          rw [hh]; exact List.mem_cons_self x t
      have hsplit := reMatch_append r prev (c :: rest) x hxmem
      by_cases he : x.1.isEmpty
      · simp only [he, if_pos] at hm
        exact (scanAux_sublist r fuel (some c) rest m hm).trans
          (List.suffix_cons c rest).isInfix
      · simp only [he, Bool.false_eq_true, if_neg, not_false_iff,
          List.mem_cons] at hm
        rcases hm with rfl | hm
        · exact ⟨[], x.2.2, by simpa using hsplit⟩
        · exact (scanAux_sublist r fuel x.2.1 x.2.2 m hm).trans
            ⟨x.1, [], by simpa using hsplit⟩

/-- Every extracted address occurs verbatim inside the line. -/
theorem extractIPs_sublist (line m : String) (hm : m ∈ extractIPs line) :
    m.data <:+: line.data := by
  rcases List.mem_append.mp hm with h | h <;>
  · rcases List.mem_map.mp h with ⟨l, hl, rfl⟩
    exact scanAux_sublist _ _ _ _ l hl

/-! ## Claim C7 -/

/-- C7, counterexample: the claim says every address in `fe80::/10` (such as
ones textually beginning `fe81:` or `feb0:`) and every address in `fc00::/7`
(such as ones beginning `fc01:` or `fcff:`) is classified private, but the
code tests the literal prefixes `fe80:` / `fc00:` / `fd??:` only, so these
addresses — numerically inside the documented ranges, as witnessed through
`parse6` — are classified public. -/
theorem isPrivateIP_ipv6_range_counterexample :
    isPrivateIP "fe81::1" = false ∧ in6 ((parse6 "fe81::1").getD 0) ∧
    isPrivateIP "feb0::1" = false ∧ in6 ((parse6 "feb0::1").getD 0) ∧
    isPrivateIP "fc01::1" = false ∧ in6 ((parse6 "fc01::1").getD 0) ∧
    isPrivateIP "fcff::1" = false ∧ in6 ((parse6 "fcff::1").getD 0) := by
  decide

/-- C7, amended: `classify` returns private for an IPv6 address exactly on
the textual rules of the code — the exact string `::1`, or a prefix `fe80:`
or `fc00:` (case-insensitively), or `fd` plus two hex digits and a colon —
so addresses elsewhere in `fe80::/10` or `fc00::/7` whose text begins
otherwise (e.g. `fe81:`, `feb0:`, `fc01:`, `fcff:`) are classified public. -/
theorem isPrivateIP_ipv6_textual_rules :
    isPrivateIP "::1" = true ∧
    (∀ rest : String,
      isPrivateIP (String.mk ('f' :: 'e' :: '8' :: '0' :: ':' :: rest.data)) = true) ∧
    (∀ rest : String,
      isPrivateIP (String.mk ('F' :: 'E' :: '8' :: '0' :: ':' :: rest.data)) = true) ∧
    (∀ rest : String,
      isPrivateIP (String.mk ('f' :: 'c' :: '0' :: '0' :: ':' :: rest.data)) = true) ∧
    (∀ (c3 c4 : Char) (rest : String), hexB c3 → hexB c4 →
      isPrivateIP (String.mk ('f' :: 'd' :: c3 :: c4 :: ':' :: rest.data)) = true) ∧
    isPrivateIP "fe81::1" = false ∧ isPrivateIP "feb0::1" = false ∧
    isPrivateIP "fc01::1" = false ∧ isPrivateIP "fcff::1" = false := by
  refine ⟨rfl, fun rest => rfl, fun rest => rfl, fun rest => rfl,
    fun c3 c4 rest h3 h4 => ?_, rfl, rfl, rfl, rfl⟩
  simp [isPrivateIP, testFd, test10, test172, test192168, test127, test169254,
    test0, test100, testLoop6, testFe80, testFc00, h3, h4]

/-- C7, witness for the hypotheses of the `fd` clause. -/
theorem isPrivateIP_ipv6_textual_rules_witness :
    isPrivateIP (String.mk ('f' :: 'd' :: '1' :: '2' :: ':' :: ":3456::1".data)) = true :=
  isPrivateIP_ipv6_textual_rules.2.2.2.2.1 '1' '2' ":3456::1" (by decide) (by decide)

/-! ## Claim C8 -/

/-- C8, counterexample: the claim says every well-formed IPv6 literal,
including forms beginning with `::` such as `::1`, is returned among the
IPv6 matches of a line containing it; but every alternative of the pattern
begins with `\b`, which fails between start-of-line or a space and `:`, so
for these lines nothing is extracted at all. -/
theorem extractIPs_loopback6_counterexample :
    extractIPs "::1" = [] ∧ extractIPs "attack from ::1 port 22" = [] := by
  decide

/-- C8, amended: the pattern extracts fully-expanded eight-group IPv6
literals; a literal beginning with `::` (such as `::1` or
`::ffff:1.2.3.4`) is matched only when the leading `:` is immediately
preceded by a word character, because every alternative starts with a `\b`
that fails after whitespace; and for a literal with interior compression
the earlier trailing-`::` alternative of the ordered alternation takes
priority, so only a truncated `h:...:h::` front part is returned
(e.g. `2001:db8::1` yields `2001:db8::`). -/
theorem extractIPs_ipv6_forms :
    extractIPs "Failed login from 2001:db8:85a3:0000:0000:8a2e:0370:7334" =
      ["2001:db8:85a3:0000:0000:8a2e:0370:7334"] ∧
    extractIPs "::1" = [] ∧
    extractIPs "x::1" = ["::1"] ∧
    extractIPs "from 2001:db8::1 port" = ["2001:db8::"] ∧
    extractIPs " ::ffff:1.2.3.4 " = ["1.2.3.4"] := by
  decide

/-! ## Association-list lemmas -/

theorem mfind_mapPush_self {α : Type} (m : List (String × List α)) (k : String)
    (v : α) : mfind (mapPush m k v) k = some ((mfind m k).getD [] ++ [v]) := by
  induction m with
  | nil => simp [mfind, mapPush]
  | cons e rest ih =>
    by_cases he : e.1 = k
    · simp [mfind, mapPush, he, List.find?]
    · simp only [mapPush, he, if_neg, not_false_iff]
      simpa [mfind, List.find?, he] using ih

theorem mfind_mapPush_ne {α : Type} (m : List (String × List α)) (k k' : String)
    (v : α) (h : k' ≠ k) : mfind (mapPush m k v) k' = mfind m k' := by
  induction m with
  | nil => simp [mfind, mapPush, List.find?, h, Ne.symm h]
  | cons e rest ih =>
    by_cases he : e.1 = k
    · subst he
      simp [mfind, mapPush, List.find?, h, Ne.symm h]
    · by_cases he' : e.1 = k'
      · simp [mfind, mapPush, List.find?, he, he', h, Ne.symm h]
      · simp only [mapPush, he, if_neg, not_false_iff]
        simpa [mfind, List.find?, he, he'] using ih

theorem mfind_mapSet_self {α : Type} (m : List (String × α)) (k : String)
    (v : α) : mfind (mapSet m k v) k = some v := by
  induction m with
  | nil => simp [mfind, mapSet, List.find?]
  | cons e rest ih =>
    by_cases he : e.1 = k
    · simp [mfind, mapSet, he, List.find?]
    · simp only [mapSet, he, if_neg, not_false_iff]
      simpa [mfind, List.find?, he] using ih

theorem mfind_mapSet_ne {α : Type} (m : List (String × α)) (k k' : String)
    (v : α) (h : k' ≠ k) : mfind (mapSet m k v) k' = mfind m k' := by
  induction m with
  | nil => simp [mfind, mapSet, List.find?, h, Ne.symm h]
  | cons e rest ih =>
    by_cases he : e.1 = k
    · subst he
      simp [mfind, mapSet, List.find?, h, Ne.symm h]
    · by_cases he' : e.1 = k'
      · simp [mfind, mapSet, List.find?, he, he', h, Ne.symm h]
      · simp only [mapSet, he, if_neg, not_false_iff]
        simpa [mfind, List.find?, he, he'] using ih

/-! ## Claim C4 -/

/-- Appending through `mapPush` and then reading any key: the entry grows by
the pushed value exactly at its key. -/
theorem groupFold_mfind (rs : List (String × WhoisRecord)) :
    ∀ (g : List (String × List WhoisRecord)) (k : String),
      mfind (rs.foldl (fun groups e => mapPush groups (groupKey e.2) e.2) g) k =
        (let l := (rs.map (·.2)).filter fun r => groupKey r == k
         if l = [] then mfind g k else some ((mfind g k).getD [] ++ l)) := by
  induction rs with
  | nil => intro g k; simp
  | cons e rs ih =>
    intro g k
    simp only [List.foldl_cons, List.map_cons, List.filter_cons]
    by_cases hk : groupKey e.2 = k
    · rw [ih]
      simp only [hk, beq_self_eq_true, if_pos, mfind_mapPush_self,
        Option.getD_some]
      rcases hf : (rs.map (·.2)).filter (fun r => groupKey r == k) with _ | _ <;>
        simp [List.append_assoc]
    · have hb : (groupKey e.2 == k) = false := by simpa using hk
      rw [ih, hb, mfind_mapPush_ne g (groupKey e.2) k e.2 fun h => hk h.symm]
      simp

/-- `mapPush` adds one value to the multiset of stored values. -/
theorem mapPush_flatMap {α : Type} (m : List (String × List α)) (k : String)
    (v : α) :
    List.Perm ((mapPush m k v).flatMap (·.2)) (m.flatMap (·.2) ++ [v]) := by
  induction m with
  | nil => simp [mapPush]
  | cons e rest ih =>
    by_cases he : e.1 = k
    · simp only [mapPush, he, if_pos, List.flatMap_cons, List.append_assoc]
      exact List.Perm.append_left e.2
        (by simpa using @List.perm_append_comm _ [v] (rest.flatMap (·.2)))
    · simp only [mapPush, he, if_neg, not_false_iff, List.flatMap_cons]
      have h1 : (e.2 ++ (mapPush rest k v).flatMap (·.2)).Perm
          (e.2 ++ (rest.flatMap (·.2) ++ [v])) := List.Perm.append_left e.2 ih
      simpa [List.append_assoc] using h1

/-- The fold underlying `groupByAbuseEmail` preserves the record multiset. -/
theorem groupFold_perm (rs : List (String × WhoisRecord)) :
    ∀ g : List (String × List WhoisRecord),
      List.Perm
        ((rs.foldl (fun groups e => mapPush groups (groupKey e.2) e.2) g).flatMap (·.2))
        (g.flatMap (·.2) ++ rs.map (·.2)) := by
  induction rs with
  | nil => intro g; simp
  | cons e rs ih =>
    intro g
    simp only [List.foldl_cons, List.map_cons]
    have h2 : ((mapPush g (groupKey e.2) e.2).flatMap (·.2) ++ rs.map (·.2)).Perm
        ((g.flatMap (·.2) ++ [e.2]) ++ rs.map (·.2)) :=
      List.Perm.append_right _ (mapPush_flatMap g (groupKey e.2) e.2)
    simpa [List.append_assoc] using (ih (mapPush g (groupKey e.2) e.2)).trans h2

/-- C4: `group` assigns each record whose abuse contact is absent or empty
to the sentinel `unknown@unknown` key and every other record to its
abuse-contact key, preserving input order within each group (first
conjunct: each group's list is exactly the input records with that key, in
order), and the groups partition the input multiset (second conjunct);
third conjunct: every contact-less record lands in the sentinel group. -/
theorem groupByAbuseEmail_partition :
    (∀ (whoisResults : List (String × WhoisRecord)) (k : String),
      mfind (groupByAbuseEmail whoisResults) k =
        (let l := (whoisResults.map (·.2)).filter fun r => groupKey r == k
         if l = [] then none else some l)) ∧
    (∀ whoisResults : List (String × WhoisRecord),
      List.Perm ((groupByAbuseEmail whoisResults).flatMap (·.2))
        (whoisResults.map (·.2))) ∧
    (∀ (whoisResults : List (String × WhoisRecord)) (r : WhoisRecord),
      r ∈ whoisResults.map (·.2) →
      r.abuseEmail = none ∨ r.abuseEmail = some "" →
      r ∈ (mfind (groupByAbuseEmail whoisResults) "unknown@unknown").getD []) := by
  have hchar : ∀ (whoisResults : List (String × WhoisRecord)) (k : String),
      mfind (groupByAbuseEmail whoisResults) k =
        (let l := (whoisResults.map (·.2)).filter fun r => groupKey r == k
         if l = [] then none else some l) := by
    intro rs k
    rw [groupByAbuseEmail, groupFold_mfind rs [] k]
    rcases hf : (rs.map (·.2)).filter (fun r => groupKey r == k) with _ | _ <;>
      simp [mfind]
  refine ⟨hchar, fun rs => ?_, fun rs r hr hc => ?_⟩
  · simpa using groupFold_perm rs []
  · have hkey : groupKey r = "unknown@unknown" := by
      rcases hc with h | h <;> simp [groupKey, h]
    have hmem : r ∈ (rs.map (·.2)).filter fun x => groupKey x == "unknown@unknown" := by
      simp only [List.mem_filter, beq_iff_eq]
      exact ⟨hr, hkey⟩
    rw [hchar rs "unknown@unknown"]
    have hne : ((rs.map (·.2)).filter fun x => groupKey x == "unknown@unknown") ≠ [] :=
      List.ne_nil_of_mem hmem
    simp only [hne, if_neg, not_false_iff, Option.getD_some]
    exact hmem

/-- C4, witness: a record with `abuseEmail = null` is found in the sentinel
group. -/
theorem groupByAbuseEmail_partition_witness :
    ({ ip := "5.6.7.8", abuseEmail := none, orgName := "Unknown",
       netRange := none, country := none, rawWhois := none,
       error := some "x" : WhoisRecord } ∈
      (mfind (groupByAbuseEmail
        [("5.6.7.8",
          { ip := "5.6.7.8", abuseEmail := none, orgName := "Unknown",
            netRange := none, country := none, rawWhois := none,
            error := some "x" })]) "unknown@unknown").getD []) :=
  groupByAbuseEmail_partition.2.2 _ _ (by decide) (Or.inl rfl)

/-! ## Claim C5 -/

/-- The lines stored for `ip`: one copy of each line per occurrence of `ip`
among the line's extracted public addresses. -/
def entrySpec (lines : List String) (ip : String) : List String :=
  lines.flatMap fun line =>
    ((extractIPs line).filter fun x => x == ip && !isPrivateIP x).map fun _ => line

/-- One line's inner loop of `buildIPLogMap`, characterised at any key. -/
theorem buildIPLogMap_inner (line ip : String) :
    ∀ (ips : List String) (m : List (String × List String)),
      mfind (ips.foldl (fun m x => if isPrivateIP x then m else mapPush m x line) m) ip =
        (let l := (ips.filter fun x => x == ip && !isPrivateIP x).map fun _ => line
         if l = [] then mfind m ip else some ((mfind m ip).getD [] ++ l)) := by
  intro ips
  induction ips with
  | nil => intro m; simp
  | cons x ips ih =>
    intro m
    simp only [List.foldl_cons, List.filter_cons]
    by_cases hp : isPrivateIP x
    · simpa [hp] using ih m
    · by_cases hx : x = ip
      · subst hx
        rw [if_neg hp, ih (mapPush m x line)]
        simp only [hp, Bool.not_false, beq_self_eq_true, Bool.and_self,
          if_pos, List.map_cons, mfind_mapPush_self, Option.getD_some]
        rcases hf : (ips.filter fun y => y == x && !isPrivateIP y).map
            (fun _ => line) with _ | _ <;>
          simp [hp, hf, List.append_assoc]
      · have hb : (x == ip && !isPrivateIP x) = false := by
          simp [hx]
        rw [if_neg hp, ih (mapPush m x line), hb,
          mfind_mapPush_ne m x ip line fun h => hx h.symm]
        simp [hp]

/-- The outer loop of `buildIPLogMap`, characterised at any key. -/
theorem buildIPLogMap_fold (ip : String) :
    ∀ (lines : List String) (g : List (String × List String)),
      mfind (lines.foldl
          (fun m line => (extractIPs line).foldl
            (fun m x => if isPrivateIP x then m else mapPush m x line) m) g) ip =
        (let l := entrySpec lines ip
         if l = [] then mfind g ip else some ((mfind g ip).getD [] ++ l)) := by
  intro lines
  induction lines with
  | nil => intro g; simp [entrySpec]
  | cons line lines ih =>
    intro g
    have hcons : entrySpec (line :: lines) ip =
        ((extractIPs line).filter fun x => x == ip && !isPrivateIP x).map
          (fun _ => line) ++ entrySpec lines ip := rfl
    simp only [List.foldl_cons]
    rw [ih, buildIPLogMap_inner line ip (extractIPs line) g, hcons]
    generalize ((extractIPs line).filter fun x => x == ip && !isPrivateIP x).map
      (fun _ => line) = L1
    generalize entrySpec lines ip = L2
    rcases L1 with _ | ⟨a, t1⟩ <;> rcases L2 with _ | ⟨b, t2⟩ <;>
      simp [List.append_assoc]

/-- C5, counterexample: the claim says a line in which the same public
address occurs more than once contributes that line only once to that
address's entry; but `String.match` with the `g` flag returns one item per
occurrence and the loop pushes the line for each, so a line containing
`9.9.9.9` twice is stored twice. -/
theorem buildIPLogMap_duplicate_line_counterexample :
    buildIPLogMap ["9.9.9.9 9.9.9.9"] =
      [("9.9.9.9", ["9.9.9.9 9.9.9.9", "9.9.9.9 9.9.9.9"])] ∧
    mfind (buildIPLogMap ["9.9.9.9 9.9.9.9"]) "9.9.9.9" ≠
      some ["9.9.9.9 9.9.9.9"] := by
  decide

/-- C5, amended: the Log Index maps each public address to the
insertion-ordered list of lines mentioning it, with one copy of a line per
extracted occurrence of the address in that line — a line in which the same
public address occurs `n` times contributes that line `n` times (first
conjunct, an exact characterisation of every entry); and every stored line
contains the address verbatim (second conjunct). -/
theorem buildIPLogMap_per_occurrence :
    (∀ (lines : List String) (ip : String),
      mfind (buildIPLogMap lines) ip =
        (let l := entrySpec lines ip
         if l = [] then none else some l)) ∧
    (∀ (lines : List String) (ip line : String) (v : List String),
      mfind (buildIPLogMap lines) ip = some v → line ∈ v →
      ip.data <:+: line.data) := by
  have hchar : ∀ (lines : List String) (ip : String),
      mfind (buildIPLogMap lines) ip =
        (let l := entrySpec lines ip
         if l = [] then none else some l) := by
    intro lines ip
    rw [buildIPLogMap, buildIPLogMap_fold ip lines []]
    rcases h : entrySpec lines ip with _ | _ <;> simp [mfind, h]
  refine ⟨hchar, fun lines ip line v hv hline => ?_⟩
  rw [hchar lines ip] at hv
  rcases h : entrySpec lines ip with _ | ⟨b, t⟩
  · simp [h] at hv
  · rw [h] at hv
    simp only [List.cons_ne_nil, not_false_iff, if_neg, Option.some.injEq] at hv
    subst hv
    have hmem : line ∈ entrySpec lines ip := by
      rw [h]; exact hline
    rcases List.mem_flatMap.mp hmem with ⟨l0, _, hl0⟩
    rcases List.mem_map.mp hl0 with ⟨x, hx, rfl⟩
    have hfil := List.mem_filter.mp hx
    have hxip : x = ip := by
      have := hfil.2
      simp only [Bool.and_eq_true, beq_iff_eq] at this
      exact this.1
    exact extractIPs_sublist l0 ip (hxip ▸ hfil.1)

/-- C5, witness: a concrete application of the infix conjunct. -/
theorem buildIPLogMap_per_occurrence_witness :
    ("8.8.8.8" : String).data <:+: ("a 8.8.8.8 b" : String).data :=
  buildIPLogMap_per_occurrence.2 ["a 8.8.8.8 b"] "8.8.8.8" "a 8.8.8.8 b"
    ["a 8.8.8.8 b"] (by decide) (by decide)

/-! ## Claims C1, C3: cache behaviour and failure encoding -/

/-- `rateLimitDelay` does not touch the cache. -/
theorem rateLimitDelay_cache (st : LState) :
    (rateLimitDelay st).whoisCache = st.whoisCache := by
  simp only [rateLimitDelay]
  split <;> rfl

/-- After `rateLimitDelay` the timestamp equals the clock, and — provided
the timestamp was not in the future — it moved at least 1000 ms past the
previous one. -/
theorem rateLimitDelay_spec (st : LState) (h : st.lastWhoisQuery ≤ st.now) :
    (rateLimitDelay st).now = (rateLimitDelay st).lastWhoisQuery ∧
    st.lastWhoisQuery + 1000 ≤ (rateLimitDelay st).lastWhoisQuery := by
  simp only [rateLimitDelay]
  split <;> simp <;> omega

/-- On a cache miss, `lookupIP` caches the returned record, keeps the
timestamp set by `rateLimitDelay`, advances the clock by the query
duration, and issues exactly one query at that timestamp. -/
theorem lookupIP_miss (env : Env) (st : LState) (ip : String)
    (h : mfind st.whoisCache ip = none) :
    (lookupIP env st ip).2.1.whoisCache =
      mapSet st.whoisCache ip (lookupIP env st ip).1 ∧
    (lookupIP env st ip).2.1.lastWhoisQuery = (rateLimitDelay st).lastWhoisQuery ∧
    (lookupIP env st ip).2.1.now =
      (rateLimitDelay st).now + env.queryDuration ip ∧
    (lookupIP env st ip).2.2 = [.query ip (rateLimitDelay st).lastWhoisQuery] := by
  rcases hw : env.whois ip with msg | stdout <;>
    simp [lookupIP, h, hw, rateLimitDelay_cache]

/-- C1: resolving the same address a second time within a run returns the
previously produced record immediately — the state (cache, timestamp and
clock) is unchanged and no event occurs, so no external query is issued and
no rate-limit delay is incurred; this holds whether the first resolution
succeeded or failed, since failure records are cached too (first conjunct);
and a cache hit always returns the stored record with unchanged state and
no events (second conjunct). -/
theorem lookupIP_cached_no_requery :
    (∀ (env : Env) (st : LState) (ip : String),
      lookupIP env (lookupIP env st ip).2.1 ip =
        ((lookupIP env st ip).1, (lookupIP env st ip).2.1, [])) ∧
    (∀ (env : Env) (st : LState) (ip : String) (r : WhoisRecord),
      mfind st.whoisCache ip = some r → lookupIP env st ip = (r, st, [])) := by
  constructor
  · intro env st ip
    rcases hc : mfind st.whoisCache ip with _ | r
    · rcases hw : env.whois ip with msg | stdout <;>
        simp [lookupIP, hc, hw, rateLimitDelay_cache, mfind_mapSet_self]
    · simp [lookupIP, hc]
  · intro env st ip r h
    simp [lookupIP, h]

/-- C1, witness: a concrete cache hit. -/
theorem lookupIP_cached_no_requery_witness :
    lookupIP { whois := fun _ => .error "e", queryDuration := fun _ => 0 }
      { whoisCache := [("8.8.8.8",
          { ip := "8.8.8.8", abuseEmail := none, orgName := "Unknown",
            netRange := none, country := none, rawWhois := none,
            error := some "e" })],
        lastWhoisQuery := 0, now := 0 } "8.8.8.8" =
      ({ ip := "8.8.8.8", abuseEmail := none, orgName := "Unknown",
         netRange := none, country := none, rawWhois := none,
         error := some "e" },
       { whoisCache := [("8.8.8.8",
           { ip := "8.8.8.8", abuseEmail := none, orgName := "Unknown",
             netRange := none, country := none, rawWhois := none,
             error := some "e" })],
         lastWhoisQuery := 0, now := 0 }, []) :=
  lookupIP_cached_no_requery.2 _ _ "8.8.8.8" _ (by decide)

/-- The processing loop handles the input addresses in order. -/
theorem lookupIPsGo_fst (env : Env) (total : Nat) :
    ∀ (ips : List String) (i : Nat) (st : LState),
      (lookupIPsGo env total ips i st).1.map (·.1) = ips := by
  intro ips
  induction ips with
  | nil => intro i st; rfl
  | cons ip rest ih => intro i st; simp [lookupIPsGo, ih]

/-- Folding `mapSet` over pairs makes every pair's key present. -/
theorem mfind_foldl_mapSet {α : Type} :
    ∀ (ps : List (String × α)) (m : List (String × α)) (k : String),
      (k ∈ ps.map (·.1) ∨ ∃ v, mfind m k = some v) →
      ∃ v, mfind (ps.foldl (fun m p => mapSet m p.1 p.2) m) k = some v := by
  intro ps
  induction ps with
  | nil =>
    intro m k h
    rcases h with h | h
    · simp at h
    · exact h
  | cons p ps ih =>
    intro m k h
    simp only [List.foldl_cons]
    by_cases hk : k = p.1
    · refine ih _ _ (Or.inr ⟨p.2, ?_⟩)
      rw [hk]
      exact mfind_mapSet_self m p.1 p.2
    · rcases h with h | ⟨v, hv⟩
      · simp only [List.map_cons, List.mem_cons] at h
        rcases h with h' | h'
        · exact absurd h' hk
        · exact ih _ _ (Or.inl h')
      · exact ih _ _ (Or.inr ⟨v, by rw [mfind_mapSet_ne m p.1 k p.2 hk]; exact hv⟩)

/-- C3: `resolve_all` is total — it never raises, which the embedding
expresses by `lookupIPs` being a total function — and its result map
contains a record for every input address (first conjunct); every failure
of the external call (timeout, non-zero exit, I/O error are all modelled by
the oracle returning an error message) is converted inside `lookupIP` into
a Lookup Record with the error message populated, all optional fields
empty, and organization "Unknown" (second conjunct), so no failure escapes
the component or aborts the batch. -/
theorem lookupIPs_never_raises :
    (∀ (env : Env) (ips : List String) (st : LState), ∀ ip ∈ ips,
      ∃ r, mfind (lookupIPs env ips st).1 ip = some r) ∧
    (∀ (env : Env) (st : LState) (ip msg : String),
      mfind st.whoisCache ip = none → env.whois ip = .error msg →
      (lookupIP env st ip).1 =
        { ip := ip, abuseEmail := none, orgName := "Unknown", netRange := none,
          country := none, rawWhois := none, error := some msg }) := by
  constructor
  · intro env ips st ip hip
    apply mfind_foldl_mapSet
    left
    rw [lookupIPsGo_fst env ips.length ips 0 st]
    exact hip
  · intro env st ip msg hc hw
    simp [lookupIP, hc, hw]

/-- C3, witness. -/
theorem lookupIPs_never_raises_witness :
    (∃ r, mfind (lookupIPs
        { whois := fun _ => .error "timed out", queryDuration := fun _ => 7 }
        ["9.9.9.9"] { whoisCache := [], lastWhoisQuery := 0, now := 0 }).1
      "9.9.9.9" = some r) ∧
    (lookupIP { whois := fun _ => .error "timed out", queryDuration := fun _ => 7 }
        { whoisCache := [], lastWhoisQuery := 0, now := 0 } "9.9.9.9").1 =
      { ip := "9.9.9.9", abuseEmail := none, orgName := "Unknown",
        netRange := none, country := none, rawWhois := none,
        error := some "timed out" } :=
  ⟨lookupIPs_never_raises.1 _ ["9.9.9.9"] _ "9.9.9.9" (by decide),
   lookupIPs_never_raises.2 _ _ "9.9.9.9" "timed out" (by decide) rfl⟩

/-! ## Claim C2: rate-limited query spacing -/

/-- Project a query event to its (address, issuance time). -/
def queryOf : Event → Option (String × Nat)
  | .query ip t => some (ip, t)
  | _ => none

/-- Project a progress event to its arguments. -/
def progressOf : Event → Option (String × Nat × Nat)
  | .progress ip idx total => some (ip, idx, total)
  | _ => none

/-- The queries of the processing loop: with an initial state whose cache
misses every remaining address and whose timestamp is not in the future,
the loop queries exactly the input addresses in order, and the issuance
times — seeded with the incoming timestamp — are spaced at least 1000 ms
apart. -/
theorem lookupIPsGo_queries (env : Env) (total : Nat) :
    ∀ (ips : List String) (i : Nat) (st : LState),
      (∀ ip ∈ ips, mfind st.whoisCache ip = none) → ips.Nodup →
      st.lastWhoisQuery ≤ st.now →
      ((lookupIPsGo env total ips i st).2.2.filterMap queryOf).map Prod.fst = ips ∧
      List.Chain' (fun a b => a + 1000 ≤ b)
        (st.lastWhoisQuery ::
          ((lookupIPsGo env total ips i st).2.2.filterMap queryOf).map Prod.snd) := by
  intro ips
  induction ips with
  | nil =>
    intro i st _ _ _
    simp [lookupIPsGo]
  | cons ip rest ih =>
    intro i st hc hnd hts
    have hmiss : mfind st.whoisCache ip = none := hc ip (List.mem_cons_self ip rest)
    obtain ⟨hcache, hlast, hnow, hevents⟩ := lookupIP_miss env st ip hmiss
    obtain ⟨heq, hstep⟩ := rateLimitDelay_spec st hts
    set st' := (lookupIP env st ip).2.1 with hst'
    have hts' : st'.lastWhoisQuery ≤ st'.now := by
      rw [hlast, hnow, ← heq]; omega
    have hc' : ∀ x ∈ rest, mfind st'.whoisCache x = none := by
      intro x hx
      have hxip : x ≠ ip := by
        intro hcontra
        subst hcontra
        exact (List.nodup_cons.mp hnd).1 hx
      rw [hcache, mfind_mapSet_ne st.whoisCache ip x (lookupIP env st ip).1 hxip]
      exact hc x (List.mem_cons_of_mem ip hx)
    obtain ⟨ihfst, ihchain⟩ :=
      ih (i + 1) st' hc' (List.nodup_cons.mp hnd).2 hts'
    constructor
    · simp [lookupIPsGo, hevents, queryOf, List.filterMap_append, ihfst]
    · have hchain2 :
          List.Chain' (fun a b => a + 1000 ≤ b)
            ((rateLimitDelay st).lastWhoisQuery ::
              ((lookupIPsGo env total rest (i + 1) st').2.2.filterMap queryOf).map
                Prod.snd) := by
        rw [← hlast]
        exact ihchain
      simp only [lookupIPsGo, hevents, List.filterMap_cons, List.filterMap_append,
        queryOf, List.map_cons]
      exact List.Chain'.cons hstep hchain2

/-- C2: starting from a run-initial state (empty cache, timestamp not in
the future), `resolve_all` on pairwise-distinct addresses issues exactly
one external query per address, strictly in input order, and each query's
issuance time is at least 1000 ms after the prior query's issuance time. -/
theorem lookupIPs_rate_limit_spacing (env : Env) (ips : List String) (st : LState)
    (hcache : st.whoisCache = []) (hnd : ips.Nodup)
    (hts : st.lastWhoisQuery ≤ st.now) :
    ((lookupIPs env ips st).2.2.filterMap queryOf).map Prod.fst = ips ∧
    List.Chain' (fun a b => a + 1000 ≤ b)
      (((lookupIPs env ips st).2.2.filterMap queryOf).map Prod.snd) := by
  have hc : ∀ ip ∈ ips, mfind st.whoisCache ip = none := by
    intro ip _
    rw [hcache]
    rfl
  obtain ⟨hfst, hchain⟩ := lookupIPsGo_queries env ips.length ips 0 st hc hnd hts
  exact ⟨hfst, hchain.tail⟩

/-- C2, witness: two distinct addresses from the initial state. -/
theorem lookupIPs_rate_limit_spacing_witness :
    (((lookupIPs { whois := fun _ => .error "e", queryDuration := fun _ => 3 }
        ["1.1.1.1", "2.2.2.2"]
        { whoisCache := [], lastWhoisQuery := 0, now := 0 }).2.2.filterMap
          queryOf).map Prod.fst = ["1.1.1.1", "2.2.2.2"]) ∧
    List.Chain' (fun a b => a + 1000 ≤ b)
      (((lookupIPs { whois := fun _ => .error "e", queryDuration := fun _ => 3 }
        ["1.1.1.1", "2.2.2.2"]
        { whoisCache := [], lastWhoisQuery := 0, now := 0 }).2.2.filterMap
          queryOf).map Prod.snd) :=
  lookupIPs_rate_limit_spacing _ _ _ rfl (by decide) (by decide)

/-! ## Claim C6: progress callback ordering -/

/-- Event tags with issuance times erased, to state trace shapes exactly. -/
inductive ETag where
  | progress (ip : String) (idx total : Nat)
  | query (ip : String)
deriving DecidableEq, Repr

/-- Erase the time of an event. -/
def tagOf : Event → ETag
  | .progress ip idx total => .progress ip idx total
  | .query ip _ => .query ip

/-- `lookupIP` never invokes the progress callback. -/
theorem lookupIP_no_progress (env : Env) (st : LState) (ip : String) :
    (lookupIP env st ip).2.2.filterMap progressOf = [] := by
  rcases hc : mfind st.whoisCache ip with _ | r
  · rcases hw : env.whois ip with msg | stdout <;>
      simp [lookupIP, hc, hw, progressOf]
  · simp [lookupIP, hc]

/-- The progress invocations of the processing loop, for every input. -/
theorem lookupIPsGo_progress (env : Env) (total : Nat) :
    ∀ (ips : List String) (i : Nat) (st : LState),
      (lookupIPsGo env total ips i st).2.2.filterMap progressOf =
        (List.enumFrom i ips).map fun p => (p.2, p.1 + 1, total) := by
  intro ips
  induction ips with
  | nil => intro i st; simp [lookupIPsGo]
  | cons ip rest ih =>
    intro i st
    simp [lookupIPsGo, List.filterMap_append, lookupIP_no_progress, progressOf,
      ih (i + 1)]

/-- Under a run-initial cache and distinct addresses, the full trace:
for each address, one progress invocation immediately followed by that
address's query. -/
theorem lookupIPsGo_tags (env : Env) (total : Nat) :
    ∀ (ips : List String) (i : Nat) (st : LState),
      (∀ ip ∈ ips, mfind st.whoisCache ip = none) → ips.Nodup →
      (lookupIPsGo env total ips i st).2.2.map tagOf =
        (List.enumFrom i ips).flatMap fun p =>
          [ETag.progress p.2 (p.1 + 1) total, ETag.query p.2] := by
  intro ips
  induction ips with
  | nil => intro i st _ _; simp [lookupIPsGo]
  | cons ip rest ih =>
    intro i st hc hnd
    have hmiss : mfind st.whoisCache ip = none := hc ip (List.mem_cons_self ip rest)
    obtain ⟨hcache, _, _, hevents⟩ := lookupIP_miss env st ip hmiss
    have hc' : ∀ x ∈ rest, mfind (lookupIP env st ip).2.1.whoisCache x = none := by
      intro x hx
      have hxip : x ≠ ip := by
        intro hcontra
        subst hcontra
        exact (List.nodup_cons.mp hnd).1 hx
      rw [hcache, mfind_mapSet_ne st.whoisCache ip x (lookupIP env st ip).1 hxip]
      exact hc x (List.mem_cons_of_mem ip hx)
    simp [lookupIPsGo, hevents, tagOf, ih (i + 1) _ hc' (List.nodup_cons.mp hnd).2]

/-- C6, counterexample: the claim says the progress callback fires after
the query for the address has been dispatched; but on a single fresh
address the trace is `[progress, query]` — the callback fires before the
dispatch. -/
theorem lookupIPs_progress_before_dispatch_counterexample :
    (lookupIPs { whois := fun _ => .error "fail", queryDuration := fun _ => 0 }
        ["1.2.3.4"] { whoisCache := [], lastWhoisQuery := 0, now := 0 }).2.2 =
      [.progress "1.2.3.4" 1 1, .query "1.2.3.4" 1000] ∧
    (lookupIPs { whois := fun _ => .error "fail", queryDuration := fun _ => 0 }
        ["1.2.3.4"] { whoisCache := [], lastWhoisQuery := 0, now := 0 }).2.2 ≠
      [.query "1.2.3.4" 1000, .progress "1.2.3.4" 1 1] := by
  decide

/-- C6, amended: during `resolve_all` the progress callback is invoked for
every position `i` with `(address, i+1, total)`, once per address in input
order (first conjunct, for all inputs); and for a run-initial cache and
distinct addresses it is invoked immediately *before* the query for that
address is dispatched and before processing moves to the next address — the
trace is exactly `progress₁, query₁, progress₂, query₂, …` (second
conjunct). -/
theorem lookupIPs_progress_order :
    (∀ (env : Env) (ips : List String) (st : LState),
      (lookupIPs env ips st).2.2.filterMap progressOf =
        (List.enumFrom 0 ips).map fun p => (p.2, p.1 + 1, ips.length)) ∧
    (∀ (env : Env) (ips : List String) (st : LState),
      st.whoisCache = [] → ips.Nodup →
      (lookupIPs env ips st).2.2.map tagOf =
        (List.enumFrom 0 ips).flatMap fun p =>
          [ETag.progress p.2 (p.1 + 1) ips.length, ETag.query p.2]) := by
  constructor
  · intro env ips st
    exact lookupIPsGo_progress env ips.length ips 0 st
  · intro env ips st hcache hnd
    exact lookupIPsGo_tags env ips.length ips 0 st
      (fun ip _ => by rw [hcache]; rfl) hnd

/-- C6, witness for the second conjunct's hypotheses. -/
theorem lookupIPs_progress_order_witness :
    (lookupIPs { whois := fun _ => .ok "OrgName: A", queryDuration := fun _ => 1 }
        ["1.1.1.1", "2.2.2.2"]
        { whoisCache := [], lastWhoisQuery := 0, now := 0 }).2.2.map tagOf =
      [ETag.progress "1.1.1.1" 1 2, ETag.query "1.1.1.1",
       ETag.progress "2.2.2.2" 2 2, ETag.query "2.2.2.2"] :=
  lookupIPs_progress_order.2 _ ["1.1.1.1", "2.2.2.2"] _ rfl (by decide)

/-! ## Claim C9: infrastructure about the semantic parsers -/

theorem splitChar_ne_nil (sep : Char) : ∀ cs : List Char, splitChar sep cs ≠ [] := by
  intro cs
  cases cs with
  | nil => simp [splitChar]
  | cons c rest =>
    by_cases h : c = sep
    · simp [splitChar, h]
    · simp only [splitChar, h, if_neg, not_false_iff]
      rcases hs : splitChar sep rest with _ | _ <;> simp

theorem splitChar_cons_ne (sep c : Char) (cs : List Char) (h : c ≠ sep) :
    ∃ t ts, splitChar sep cs = t :: ts ∧ splitChar sep (c :: cs) = (c :: t) :: ts := by
  rcases hs : splitChar sep cs with _ | ⟨t, ts⟩
  · exact absurd hs (splitChar_ne_nil sep cs)
  · exact ⟨t, ts, rfl, by simp [splitChar, h, hs]⟩

theorem splitChar_sep (sep : Char) (cs : List Char) :
    splitChar sep (sep :: cs) = [] :: splitChar sep cs := by
  simp [splitChar]

theorem splitChar_append (sep : Char) :
    ∀ (l cs : List Char), (∀ c ∈ l, c ≠ sep) →
      splitChar sep (l ++ sep :: cs) = l :: splitChar sep cs := by
  intro l
  induction l with
  | nil => intro cs _; simpa using splitChar_sep sep cs
  | cons c l ih =>
    intro cs hl
    have hc : c ≠ sep := hl c (List.mem_cons_self c l)
    obtain ⟨t, ts, h1, h2⟩ :=
      splitChar_cons_ne sep c (l ++ sep :: cs) hc
    rw [List.cons_append, h2]
    rw [ih cs fun x hx => hl x (List.mem_cons_of_mem c hx)] at h1
    obtain ⟨rfl, rfl⟩ := by
      simpa using h1
    rfl

theorem splitChar_head_append (sep : Char) :
    ∀ (l cs : List Char), (∀ c ∈ l, c ≠ sep) →
      ∃ t ts, splitChar sep cs = t :: ts ∧
        splitChar sep (l ++ cs) = (l ++ t) :: ts := by
  intro l
  induction l with
  | nil =>
    intro cs _
    rcases hs : splitChar sep cs with _ | ⟨t, ts⟩
    · exact absurd hs (splitChar_ne_nil sep cs)
    · exact ⟨t, ts, rfl, by simpa using hs⟩
  | cons c l ih =>
    intro cs hl
    obtain ⟨t, ts, h1, h2⟩ := ih cs fun x hx => hl x (List.mem_cons_of_mem c hx)
    obtain ⟨t', ts', h3, h4⟩ := splitChar_cons_ne sep c (l ++ cs)
      (hl c (List.mem_cons_self c l))
    rw [h2] at h3
    obtain ⟨rfl, rfl⟩ := by simpa using h3
    exact ⟨t, ts, h1, by simpa using h4⟩

theorem splitDC_cons_ne (c : Char) (cs : List Char) (h : c ≠ ':') :
    splitDC (c :: cs) = (c :: (splitDC cs).1, (splitDC cs).2) := by
  cases cs with
  | nil => simp [splitDC]
  | cons c2 rest => simp [splitDC, h]

theorem splitDC_append :
    ∀ (l cs : List Char), (∀ c ∈ l, c ≠ ':') →
      splitDC (l ++ cs) = (l ++ (splitDC cs).1, (splitDC cs).2) := by
  intro l
  induction l with
  | nil => intro cs _; simp
  | cons c l ih =>
    intro cs hl
    rw [List.cons_append, splitDC_cons_ne c (l ++ cs) (hl c (List.mem_cons_self c l)),
      ih cs fun x hx => hl x (List.mem_cons_of_mem c hx)]
    rfl

theorem splitDC_none : ∀ cs : List Char, (splitDC cs).2 = none → (splitDC cs).1 = cs
  | [] => fun _ => rfl
  | [c] => fun _ => rfl
  | c1 :: c2 :: rest => by
    by_cases h : c1 = ':' ∧ c2 = ':'
    · simp [splitDC, h]
    · intro hn
      simp only [splitDC, h, if_neg, not_false_iff] at hn ⊢
      rw [splitDC_none (c2 :: rest) hn]

theorem hexVal_lt (c : Char) : hexVal c < 16 := by
  unfold hexVal
  split
  · rename_i h
    simp [chBetween] at h
    omega
  · split
    · rename_i h
      simp [chBetween] at h
      omega
    · split
      · rename_i h
        simp [chBetween] at h
        omega
      · omega

theorem hexB_ne_colon (c : Char) (h : hexB c = true) : c ≠ ':' := by
  intro he
  subst he
  exact absurd h (by decide)

theorem hexB_ne_dot (c : Char) (h : hexB c = true) : c ≠ '.' := by
  intro he
  subst he
  exact absurd h (by decide)

theorem hexGroupVal_lt (t : List Char) (v : Nat) (h : hexGroupVal t = some v) :
    v < 65536 := by
  have haux : ∀ (u : List Char) (a : Nat),
      u.foldl (fun a c => a * 16 + hexVal c) a < (a + 1) * 16 ^ u.length := by
    intro u
    induction u with
    | nil => intro a; simp
    | cons c u ih =>
      intro a
      have h1 := ih (a * 16 + hexVal c)
      have h2 : (a * 16 + hexVal c + 1) * 16 ^ u.length ≤ (a + 1) * 16 ^ (u.length + 1) := by
        have hc := hexVal_lt c
        have : a * 16 + hexVal c + 1 ≤ (a + 1) * 16 := by omega
        calc (a * 16 + hexVal c + 1) * 16 ^ u.length
            ≤ ((a + 1) * 16) * 16 ^ u.length := Nat.mul_le_mul_right _ this
          _ = (a + 1) * 16 ^ (u.length + 1) := by ring
      exact lt_of_lt_of_le h1 h2
  unfold hexGroupVal at h
  split at h
  · rename_i hcond
    obtain ⟨hne, hlen, hall⟩ := hcond
    have hv : v = t.foldl (fun a c => a * 16 + hexVal c) 0 := by
      simpa using h.symm
    have h1 := haux t 0
    have h2 : (16 : Nat) ^ t.length ≤ 16 ^ 4 :=
      Nat.pow_le_pow_right (by norm_num) hlen
    rw [hv]
    calc t.foldl (fun a c => a * 16 + hexVal c) 0 < 1 * 16 ^ t.length := h1
      _ ≤ 16 ^ 4 := by simpa using h2
      _ ≤ 65536 := by norm_num
  · simp at h

theorem hexGroupVal_dot (t : List Char) (h : '.' ∈ t) : hexGroupVal t = none := by
  unfold hexGroupVal
  split
  · rename_i hcond
    exact absurd ((List.all_eq_true.mp hcond.2.2) '.' h) (by decide)
  · rfl

theorem octVal_le (t : List Char) (v : Nat) (h : octVal t = some v) :
    v ≤ 255 ∧ v = decVal t := by
  unfold octVal at h
  split at h
  · rename_i hcond
    have := hcond.2.2.2
    obtain rfl : v = decVal t := by simpa using h.symm
    exact ⟨this, rfl⟩
  · simp at h

theorem octVal_digits (t : List Char) (v : Nat) (h : octVal t = some v) :
    ∀ c ∈ t, isDigitCh c = true := by
  unfold octVal at h
  split at h
  · rename_i hcond
    exact fun c hc => (List.all_eq_true.mp hcond.2.2.1) c hc
  · simp at h

theorem parse4_decomp (m : String) (q : Nat × Nat × Nat × Nat)
    (h : parse4 m = some q) :
    ∃ t1 t2 t3 t4, splitChar '.' m.data = [t1, t2, t3, t4] ∧
      octVal t1 = some q.1 ∧ octVal t2 = some q.2.1 ∧
      octVal t3 = some q.2.2.1 ∧ octVal t4 = some q.2.2.2 := by
  unfold parse4 at h
  split at h
  · rename_i t1 t2 t3 t4 heq
    split at h
    · rename_i a b c d ha hb hc hd
      obtain rfl : q = (a, b, c, d) := by
        simpa using h.symm
      exact ⟨t1, t2, t3, t4, heq, ha, hb, hc, hd⟩
    · simp at h
  · simp at h

theorem parse4_head_digit (m : String) (q : Nat × Nat × Nat × Nat)
    (h : parse4 m = some q) (c : Char) (tail : List Char)
    (hm : m.data = c :: tail) : isDigitCh c = true := by
  obtain ⟨t1, t2, t3, t4, hs, h1, _, _, _⟩ := parse4_decomp m q h
  rw [hm] at hs
  by_cases hc : c = '.'
  · subst hc
    rw [splitChar_sep] at hs
    simp only [List.cons.injEq] at hs
    rw [← hs.1] at h1
    simp [octVal] at h1
  · obtain ⟨t, ts, hts, hcons⟩ := splitChar_cons_ne '.' c tail hc
    rw [hcons] at hs
    simp only [List.cons.injEq] at hs
    have hct : c ∈ t1 := by
      rw [← hs.1]
      exact List.mem_cons_self c t
    exact octVal_digits t1 q.1 h1 c hct

theorem parse4_le (m : String) (q : Nat × Nat × Nat × Nat)
    (h : parse4 m = some q) :
    q.1 ≤ 255 ∧ q.2.1 ≤ 255 ∧ q.2.2.1 ≤ 255 ∧ q.2.2.2 ≤ 255 := by
  obtain ⟨t1, t2, t3, t4, _, h1, h2, h3, h4⟩ := parse4_decomp m q h
  exact ⟨(octVal_le t1 _ h1).1, (octVal_le t2 _ h2).1, (octVal_le t3 _ h3).1,
    (octVal_le t4 _ h4).1⟩

theorem v4Groups_lt (t : List Char) (p : Nat × Nat) (h : v4Groups t = some p) :
    p.1 < 65536 ∧ p.2 < 65536 := by
  unfold v4Groups at h
  rcases hp : parse4 (String.mk t) with _ | q
  · rw [hp] at h; simp at h
  · rw [hp] at h
    obtain rfl : p = (q.1 * 256 + q.2.1, q.2.2.1 * 256 + q.2.2.2) := by
      simpa using h.symm
    have := parse4_le (String.mk t) q hp
    constructor <;> simp <;> omega

theorem tokensToGroups_single (v4ok : Bool) (t : List Char) (gs : List Nat)
    (h : tokensToGroups v4ok [t] = some gs) :
    (∃ g, hexGroupVal t = some g ∧ gs = [g]) ∨
      (v4ok = true ∧ ∃ p, v4Groups t = some p ∧ gs = [p.1, p.2]) := by
  unfold tokensToGroups at h
  split at h
  · rename_i g hg
    exact Or.inl ⟨g, hg, by simpa using h.symm⟩
  · rename_i hg
    rcases hv : v4ok with _ | _
    · rw [hv] at h; simp at h
    · rw [hv] at h
      simp only [if_pos] at h
      rcases hp : v4Groups t with _ | p
      · rw [hp] at h; simp at h
      · rw [hp] at h
        exact Or.inr ⟨rfl, p, rfl, by simpa using h.symm⟩

theorem tokensToGroups_cons (v4ok : Bool) (t t' : List Char)
    (ts : List (List Char)) (gs : List Nat)
    (h : tokensToGroups v4ok (t :: t' :: ts) = some gs) :
    ∃ g gs', hexGroupVal t = some g ∧
      tokensToGroups v4ok (t' :: ts) = some gs' ∧ gs = g :: gs' := by
  unfold tokensToGroups at h
  split at h
  · rename_i g gs' hg hgs
    exact ⟨g, gs', hg, hgs, by simpa using h.symm⟩
  · simp at h

theorem tokensToGroups_bounded (v4ok : Bool) :
    ∀ (ts : List (List Char)) (gs : List Nat),
      tokensToGroups v4ok ts = some gs → ∀ g ∈ gs, g < 65536 := by
  intro ts
  induction ts with
  | nil =>
    intro gs h
    obtain rfl : gs = [] := by simpa [tokensToGroups] using h.symm
    simp
  | cons t ts ih =>
    intro gs h
    cases ts with
    | nil =>
      rcases tokensToGroups_single v4ok t gs h with ⟨g, hg, rfl⟩ | ⟨_, p, hp, rfl⟩
      · intro x hx
        simp only [List.mem_singleton] at hx
        subst hx
        exact hexGroupVal_lt t x hg
      · intro x hx
        have := v4Groups_lt t p hp
        simp only [List.mem_cons, List.mem_singleton, List.not_mem_nil,
          or_false] at hx
        rcases hx with rfl | rfl
        · exact this.1
        · exact this.2
    | cons t' ts' =>
      obtain ⟨g, gs', hg, hgs, rfl⟩ := tokensToGroups_cons v4ok t t' ts' gs h
      intro x hx
      rcases List.mem_cons.mp hx with rfl | hx
      · exact hexGroupVal_lt t x hg
      · exact ih gs' hgs x hx

theorem splitChar_no_sep (sep : Char) :
    ∀ l : List Char, (∀ c ∈ l, c ≠ sep) → splitChar sep l = [l] := by
  intro l
  induction l with
  | nil => intro _; rfl
  | cons c l ih =>
    intro hl
    obtain ⟨t, ts, h1, h2⟩ :=
      splitChar_cons_ne sep c l (hl c (List.mem_cons_self c l))
    rw [ih fun x hx => hl x (List.mem_cons_of_mem c hx)] at h1
    simp only [List.cons.injEq] at h1
    rw [h2, ← h1.1, h1.2]

theorem groupsVal_foldl :
    ∀ gs : List Nat, (∀ g ∈ gs, g < 65536) →
      (∀ a, gs.foldl (fun x g => x * 65536 + g) a =
        a * 65536 ^ gs.length + groupsVal gs) ∧
      groupsVal gs < 65536 ^ gs.length := by
  intro gs
  induction gs with
  | nil => intro _; exact ⟨fun a => by simp [groupsVal], by simp [groupsVal]⟩
  | cons g gs ih =>
    intro hb
    obtain ⟨ih1, ih2⟩ := ih fun x hx => hb x (List.mem_cons_of_mem g hx)
    have hg : g < 65536 := hb g (List.mem_cons_self g gs)
    have hgv : groupsVal (g :: gs) = g * 65536 ^ gs.length + groupsVal gs := by
      have := ih1 g
      simpa [groupsVal] using this
    constructor
    · intro a
      have h1 : (g :: gs).foldl (fun x g => x * 65536 + g) a =
          gs.foldl (fun x g => x * 65536 + g) (a * 65536 + g) := rfl
      rw [h1, ih1 (a * 65536 + g), hgv]
      simp only [List.length_cons]
      ring
    · rw [hgv]
      have h2 : g * 65536 ^ gs.length + groupsVal gs < (g + 1) * 65536 ^ gs.length := by
        have := ih2
        nlinarith [ih2]
      have h3 : (g + 1) * 65536 ^ gs.length ≤ 65536 * 65536 ^ gs.length :=
        Nat.mul_le_mul_right _ (by omega)
      calc g * 65536 ^ gs.length + groupsVal gs
          < (g + 1) * 65536 ^ gs.length := h2
        _ ≤ 65536 * 65536 ^ gs.length := h3
        _ = 65536 ^ (g :: gs).length := by
            simp only [List.length_cons]
            ring

theorem groupsVal_head_div (v : Nat) (gs : List Nat) (hlen : gs.length = 7)
    (hb : ∀ g ∈ gs, g < 65536) : groupsVal (v :: gs) / 2 ^ 112 = v := by
  obtain ⟨h1, h2⟩ := groupsVal_foldl gs hb
  have hgv : groupsVal (v :: gs) = v * 65536 ^ gs.length + groupsVal gs := by
    simpa [groupsVal] using h1 v
  have hP : (65536 : Nat) ^ (7 : Nat) = 2 ^ 112 := by norm_num
  rw [hgv, hlen, hP]
  rw [hlen, hP] at h2
  rw [Nat.mul_comm v (2 ^ 112), Nat.mul_add_div (by positivity),
    Nat.div_eq_of_lt h2]
  omega

/-- A side that starts with a `.`-containing run before its first `:` can
only denote an embedded dotted quad, hence exactly two groups, and only
where the dotted quad is allowed. -/
theorem sideGroups_dot_first (v4ok : Bool) (pre tail : List Char)
    (hpre : ∀ c ∈ pre, c ≠ ':') (hdot : '.' ∈ pre) (gs : List Nat)
    (h : sideGroups v4ok (pre ++ tail) = some gs) :
    v4ok = true ∧ gs.length = 2 := by
  obtain ⟨t, ts, hts, hsplit⟩ := splitChar_head_append ':' pre tail hpre
  rw [sideGroups, hsplit] at h
  have hdot' : '.' ∈ pre ++ t := List.mem_append.mpr (Or.inl hdot)
  cases ts with
  | nil =>
    rcases tokensToGroups_single v4ok (pre ++ t) gs h with
      ⟨g, hg, _⟩ | ⟨hv4, p, hp, rfl⟩
    · rw [hexGroupVal_dot _ hdot'] at hg
      simp at hg
    · exact ⟨hv4, rfl⟩
  | cons t' ts' =>
    obtain ⟨g, gs', hg, _, _⟩ := tokensToGroups_cons v4ok (pre ++ t) t' ts' gs h
    rw [hexGroupVal_dot _ hdot'] at hg
    simp at hg

/-- A side consisting of exactly four hex digits is the single group they
denote. -/
theorem sideGroups_quad_only (v4ok : Bool) (c1 c2 c3 c4 : Char)
    (h1 : hexB c1 = true) (h2 : hexB c2 = true) (h3 : hexB c3 = true)
    (h4 : hexB c4 = true) :
    sideGroups v4ok [c1, c2, c3, c4] =
      some [((hexVal c1 * 16 + hexVal c2) * 16 + hexVal c3) * 16 + hexVal c4] := by
  have hno : ∀ c ∈ [c1, c2, c3, c4], c ≠ ':' := by
    intro c hc
    simp only [List.mem_cons, List.not_mem_nil, or_false] at hc
    rcases hc with rfl | rfl | rfl | rfl
    · exact hexB_ne_colon c h1
    · exact hexB_ne_colon c h2
    · exact hexB_ne_colon c h3
    · exact hexB_ne_colon c h4
  rw [sideGroups, splitChar_no_sep ':' [c1, c2, c3, c4] hno]
  have hq : hexGroupVal [c1, c2, c3, c4] =
      some (((hexVal c1 * 16 + hexVal c2) * 16 + hexVal c3) * 16 + hexVal c4) := by
    simp [hexGroupVal, h1, h2, h3, h4]
  simp [tokensToGroups, hq]

/-- A side of the form `hhhh:`… begins with the group the four hex digits
denote. -/
theorem sideGroups_quad_head (v4ok : Bool) (c1 c2 c3 c4 : Char)
    (tail : List Char) (h1 : hexB c1 = true) (h2 : hexB c2 = true)
    (h3 : hexB c3 = true) (h4 : hexB c4 = true) (gs : List Nat)
    (h : sideGroups v4ok ([c1, c2, c3, c4] ++ ':' :: tail) = some gs) :
    ∃ gs', gs = (((hexVal c1 * 16 + hexVal c2) * 16 + hexVal c3) * 16 + hexVal c4) :: gs' ∧
      tokensToGroups v4ok (splitChar ':' tail) = some gs' := by
  have hno : ∀ c ∈ [c1, c2, c3, c4], c ≠ ':' := by
    intro c hc
    simp only [List.mem_cons, List.not_mem_nil, or_false] at hc
    rcases hc with rfl | rfl | rfl | rfl
    · exact hexB_ne_colon c h1
    · exact hexB_ne_colon c h2
    · exact hexB_ne_colon c h3
    · exact hexB_ne_colon c h4
  rw [sideGroups, splitChar_append ':' [c1, c2, c3, c4] tail hno] at h
  rcases hts : splitChar ':' tail with _ | ⟨t', ts'⟩
  · exact absurd hts (splitChar_ne_nil ':' tail)
  · rw [hts] at h
    obtain ⟨g, gs', hg, hrec, rfl⟩ :=
      tokensToGroups_cons v4ok [c1, c2, c3, c4] t' ts' gs h
    have hq : hexGroupVal [c1, c2, c3, c4] =
        some (((hexVal c1 * 16 + hexVal c2) * 16 + hexVal c3) * 16 + hexVal c4) := by
      simp [hexGroupVal, h1, h2, h3, h4]
    rw [hq] at hg
    obtain rfl : g = ((hexVal c1 * 16 + hexVal c2) * 16 + hexVal c3) * 16 + hexVal c4 := by
      simpa using hg.symm
    exact ⟨gs', rfl, hts ▸ hrec⟩

/-- A string whose text contains a `.` before any `:` is never a valid
IPv6 literal: at best it is a lone embedded dotted quad, two groups
instead of eight. -/
theorem parse6_none_of_dot (m : String) (l rest : List Char)
    (hm : m.data = l ++ '.' :: rest) (hl : ∀ c ∈ l, c ≠ ':') :
    parse6 m = none := by
  have hl' : ∀ c ∈ l ++ ['.'], c ≠ ':' := by
    intro c hc
    rcases List.mem_append.mp hc with h | h
    · exact hl c h
    · simp only [List.mem_singleton] at h
      subst h
      decide
  have hm' : m.data = (l ++ ['.']) ++ rest := by simp [hm]
  have hdc : splitDC m.data =
      ((l ++ ['.']) ++ (splitDC rest).1, (splitDC rest).2) := by
    rw [hm']
    exact splitDC_append (l ++ ['.']) rest hl'
  have hdot : '.' ∈ l ++ ['.'] :=
    List.mem_append.mpr (Or.inr (List.mem_singleton.mpr rfl))
  rcases hw : parse6 m with _ | w
  · rfl
  exfalso
  unfold parse6 at hw
  rw [hdc] at hw
  rcases hr : (splitDC rest).2 with _ | r
  · rw [hr] at hw
    simp only [] at hw
    rcases hsg : sideGroups true ((l ++ ['.']) ++ (splitDC rest).1) with _ | gs <;>
      rw [hsg] at hw
    · simp at hw
    · have hlen := (sideGroups_dot_first true (l ++ ['.']) _ hl' hdot gs hsg).2
      simp only [] at hw
      rw [if_neg (by omega)] at hw
      simp at hw
  · rw [hr] at hw
    simp only [] at hw
    rcases hr2 : splitDC r with ⟨r1, r2⟩
    rw [hr2] at hw
    rcases r2 with _ | r3
    · simp only [] at hw
      have hempty : ((l ++ ['.']) ++ (splitDC rest).1).isEmpty = false := by
        rcases hq : (l ++ ['.']) ++ (splitDC rest).1 with _ | _
        · exfalso
          simp at hq
        · rfl
      rw [if_neg (by simp [hempty])] at hw
      rcases hsg : sideGroups false ((l ++ ['.']) ++ (splitDC rest).1) with _ | gs1 <;>
        rw [hsg] at hw
      · rcases hsg2 : (if r.isEmpty then some ([] : List Nat)
            else sideGroups true r) with _ | gs2 <;>
          rw [hsg2] at hw <;> simp at hw
      · exact
          absurd ((sideGroups_dot_first false (l ++ ['.']) _ hl' hdot gs1 hsg).1)
            (by simp)
    · simp at hw

/-- A string of the form `hhhh:`… that parses as an IPv6 literal has the
four leading hex digits as its most significant group. -/
theorem parse6_first_group (m : String) (c1 c2 c3 c4 : Char) (rest : List Char)
    (hm : m.data = c1 :: c2 :: c3 :: c4 :: ':' :: rest)
    (h1 : hexB c1 = true) (h2 : hexB c2 = true) (h3 : hexB c3 = true)
    (h4 : hexB c4 = true) (w : Nat) (hw : parse6 m = some w) :
    w / 2 ^ 112 =
      ((hexVal c1 * 16 + hexVal c2) * 16 + hexVal c3) * 16 + hexVal c4 := by
  set v := ((hexVal c1 * 16 + hexVal c2) * 16 + hexVal c3) * 16 + hexVal c4 with hv
  have hno : ∀ c ∈ [c1, c2, c3, c4], c ≠ ':' := by
    intro c hc
    simp only [List.mem_cons, List.not_mem_nil, or_false] at hc
    rcases hc with rfl | rfl | rfl | rfl
    · exact hexB_ne_colon c h1
    · exact hexB_ne_colon c h2
    · exact hexB_ne_colon c h3
    · exact hexB_ne_colon c h4
  have hm4 : m.data = [c1, c2, c3, c4] ++ ':' :: rest := by simpa using hm
  rcases rest with _ | ⟨c', rest2⟩
  · -- "hhhh:". the trailing empty token makes the parse fail
    exfalso
    have hdc : splitDC m.data = ([c1, c2, c3, c4] ++ [':'], none) := by
      rw [hm4, splitDC_append [c1, c2, c3, c4] [':'] hno]
      rfl
    unfold parse6 at hw
    rw [hdc] at hw
    simp only [] at hw
    rcases hsg : sideGroups true ([c1, c2, c3, c4] ++ [':']) with _ | gs <;>
      rw [hsg] at hw
    · simp at hw
    · obtain ⟨gs', _, hrec⟩ :=
        sideGroups_quad_head true c1 c2 c3 c4 [] h1 h2 h3 h4 gs hsg
      have hnone : tokensToGroups true (splitChar ':' ([] : List Char)) = none := rfl
      rw [hnone] at hrec
      simp at hrec
  · by_cases hc' : c' = ':'
    · -- compression immediately after the quad
      subst hc'
      have hdc : splitDC m.data = ([c1, c2, c3, c4], some rest2) := by
        rw [hm4, splitDC_append [c1, c2, c3, c4] (':' :: ':' :: rest2) hno]
        rfl
      unfold parse6 at hw
      rw [hdc] at hw
      simp only [] at hw
      rcases hr2 : splitDC rest2 with ⟨r1, r2⟩
      rw [hr2] at hw
      rcases r2 with _ | r3
      · simp only [] at hw
        rw [if_neg (by simp)] at hw
        rw [sideGroups_quad_only false c1 c2 c3 c4 h1 h2 h3 h4] at hw
        rcases hsg2 : (if rest2.isEmpty then some ([] : List Nat)
            else sideGroups true rest2) with _ | gs2 <;>
          rw [hsg2] at hw
        · simp at hw
        · have hb2 : ∀ g ∈ gs2, g < 65536 := by
            by_cases he : rest2.isEmpty
            · rw [if_pos he] at hsg2
              obtain rfl : gs2 = [] := by simpa using hsg2.symm
              simp
            · rw [if_neg he] at hsg2
              exact tokensToGroups_bounded true _ gs2 hsg2
          simp only [] at hw
          split at hw
          · rename_i hle
            simp only [List.length_cons, List.length_nil] at hle
            obtain rfl : w = groupsVal ([v] ++
                List.replicate (8 - [v].length - gs2.length) 0 ++ gs2) := by
              simpa using hw.symm
            have hshape : [v] ++ List.replicate (8 - [v].length - gs2.length) 0 ++ gs2 =
                v :: (List.replicate (8 - 1 - gs2.length) 0 ++ gs2) := by
              simp
            rw [hshape]
            apply groupsVal_head_div
            · simp only [List.length_append, List.length_replicate]
              omega
            · intro g hg
              rcases List.mem_append.mp hg with hg | hg
              · rw [List.eq_of_mem_replicate hg]
                omega
              · exact hb2 g hg
          · simp at hw
      · exfalso
        simp at hw
    · -- a hex group then a colon then more text, no immediate compression
      have hstep : splitDC (':' :: c' :: rest2) =
          (':' :: (splitDC (c' :: rest2)).1, (splitDC (c' :: rest2)).2) := by
        simp [splitDC, hc']
      have hdc : splitDC m.data =
          ([c1, c2, c3, c4] ++ ':' :: (splitDC (c' :: rest2)).1,
            (splitDC (c' :: rest2)).2) := by
        rw [hm4, splitDC_append [c1, c2, c3, c4] (':' :: c' :: rest2) hno, hstep]
      have hbnd : ∀ gs, sideGroups true
          ([c1, c2, c3, c4] ++ ':' :: (splitDC (c' :: rest2)).1) = some gs →
          ∀ g ∈ gs, g < 65536 := by
        intro gs hg
        exact tokensToGroups_bounded true _ gs hg
      unfold parse6 at hw
      rw [hdc] at hw
      rcases hD : (splitDC (c' :: rest2)).2 with _ | r
      · rw [hD] at hw
        simp only [] at hw
        rcases hsg : sideGroups true
            ([c1, c2, c3, c4] ++ ':' :: (splitDC (c' :: rest2)).1) with _ | gs <;>
          rw [hsg] at hw
        · simp at hw
        · obtain ⟨gs', rfl, _⟩ :=
            sideGroups_quad_head true c1 c2 c3 c4 _ h1 h2 h3 h4 gs hsg
          simp only [] at hw
          split at hw
          · rename_i hlen8
            obtain rfl : w = groupsVal (v :: gs') := by simpa using hw.symm
            have hlen7 : gs'.length = 7 := by
              simpa using hlen8
            apply groupsVal_head_div v gs' hlen7
            intro g hg
            exact hbnd (v :: gs') hsg g (List.mem_cons_of_mem v hg)
          · simp at hw
      · rw [hD] at hw
        simp only [] at hw
        rcases hr2 : splitDC r with ⟨r1, r2⟩
        rw [hr2] at hw
        rcases r2 with _ | r3
        · simp only [] at hw
          rw [if_neg (by simp)] at hw
          have hbnd' : ∀ gs, sideGroups false
              ([c1, c2, c3, c4] ++ ':' :: (splitDC (c' :: rest2)).1) = some gs →
              ∀ g ∈ gs, g < 65536 := by
            intro gs hg
            exact tokensToGroups_bounded false _ gs hg
          rcases hsg : sideGroups false
              ([c1, c2, c3, c4] ++ ':' :: (splitDC (c' :: rest2)).1) with _ | gs1 <;>
            rw [hsg] at hw
          · rcases hsg2 : (if r.isEmpty then some ([] : List Nat)
                else sideGroups true r) with _ | gs2 <;>
              rw [hsg2] at hw <;> simp at hw
          · obtain ⟨gs1', rfl, _⟩ :=
              sideGroups_quad_head false c1 c2 c3 c4 _ h1 h2 h3 h4 gs1 hsg
            rcases hsg2 : (if r.isEmpty then some ([] : List Nat)
                else sideGroups true r) with _ | gs2 <;>
              rw [hsg2] at hw
            · simp at hw
            · have hb2 : ∀ g ∈ gs2, g < 65536 := by
                by_cases he : r.isEmpty
                · rw [if_pos he] at hsg2
                  obtain rfl : gs2 = [] := by simpa using hsg2.symm
                  simp
                · rw [if_neg he] at hsg2
                  exact tokensToGroups_bounded true _ gs2 hsg2
              simp only [] at hw
              split at hw
              · rename_i hle
                simp only [List.length_cons] at hle
                obtain rfl : w = groupsVal ((v :: gs1') ++
                    List.replicate (8 - (v :: gs1').length - gs2.length) 0 ++ gs2) := by
                  simpa using hw.symm
                have hshape : (v :: gs1') ++
                    List.replicate (8 - (v :: gs1').length - gs2.length) 0 ++ gs2 =
                    v :: (gs1' ++
                      List.replicate (8 - (gs1'.length + 1) - gs2.length) 0 ++ gs2) := by
                  simp [List.cons_append, List.length_cons]
                rw [hshape]
                apply groupsVal_head_div
                · simp only [List.length_append, List.length_replicate]
                  omega
                · intro g hg
                  rcases List.mem_append.mp hg with hg | hg
                  · rcases List.mem_append.mp hg with hg | hg
                    · exact hbnd' (v :: gs1') hsg g (List.mem_cons_of_mem v hg)
                    · rw [List.eq_of_mem_replicate hg]
                      omega
                  · exact hb2 g hg
              · simp at hw
        · exfalso
          simp at hw

theorem parse4_first_token (m : String) (t1 rest : List Char)
    (hm : m.data = t1 ++ '.' :: rest) (h1 : ∀ c ∈ t1, c ≠ '.')
    (q : Nat × Nat × Nat × Nat) (hq : parse4 m = some q) : q.1 = decVal t1 := by
  obtain ⟨u1, u2, u3, u4, hs, o1, _, _, _⟩ := parse4_decomp m q hq
  rw [hm, splitChar_append '.' t1 rest h1] at hs
  simp only [List.cons.injEq] at hs
  rw [← hs.1] at o1
  exact (octVal_le _ _ o1).2

theorem parse4_two_tokens (m : String) (t1 t2 rest : List Char)
    (hm : m.data = t1 ++ '.' :: (t2 ++ '.' :: rest))
    (h1 : ∀ c ∈ t1, c ≠ '.') (h2 : ∀ c ∈ t2, c ≠ '.')
    (q : Nat × Nat × Nat × Nat) (hq : parse4 m = some q) :
    q.1 = decVal t1 ∧ q.2.1 = decVal t2 := by
  obtain ⟨u1, u2, u3, u4, hs, o1, o2, _, _⟩ := parse4_decomp m q hq
  rw [hm, splitChar_append '.' t1 _ h1, splitChar_append '.' t2 rest h2] at hs
  simp only [List.cons.injEq] at hs
  rw [← hs.1] at o1
  rw [← hs.2.1] at o2
  exact ⟨(octVal_le _ _ o1).2, (octVal_le _ _ o2).2⟩

theorem decVal_two (b1 b2 : Char) :
    decVal [b1, b2] = (b1.toNat - 48) * 10 + (b2.toNat - 48) := by
  simp [decVal, digitVal]

theorem decVal_three (b1 b2 b3 : Char) :
    decVal [b1, b2, b3] =
      ((b1.toNat - 48) * 10 + (b2.toNat - 48)) * 10 + (b3.toNat - 48) := by
  simp [decVal, digitVal]

theorem chBetween_ne_dot {lo hi c : Char} (hlo : 48 ≤ lo.toNat)
    (h : chBetween lo hi c = true) : c ≠ '.' := by
  intro he
  subst he
  simp [chBetween] at h
  omega

/-- The heart of C9: whatever string the code classifies as private — with
no assumption on where it came from — denotes, whenever it denotes an IPv4
or an IPv6 value at all, a value inside the documented rule-table ranges. -/
theorem isPrivateIP_sound (m : String) (h : isPrivateIP m = true) :
    (∀ q, parse4 m = some q → in4 q) ∧ (∀ w, parse6 m = some w → in6 w) := by
  unfold isPrivateIP at h
  simp only [Bool.or_eq_true] at h
  rcases h with ((((((((((h | h) | h) | h) | h) | h) | h) | h) | h) | h) | h)
  · -- /^10\./
    obtain ⟨rest, hm⟩ : ∃ rest, m.data = '1' :: '0' :: '.' :: rest := by
      unfold test10 at h
      split at h
      · rename_i rest heq
        exact ⟨rest, heq⟩
      · simp at h
    constructor
    · intro q hq
      have := parse4_first_token m ['1', '0'] rest hm (by decide) q hq
      exact Or.inl (by rw [this]; decide)
    · intro w hw
      rw [parse6_none_of_dot m ['1', '0'] rest hm (by decide)] at hw
      simp at hw
  · -- /^172\.(1[6-9]|2[0-9]|3[0-1])\./
    obtain ⟨b1, b2, rest, hm, hcond⟩ : ∃ b1 b2 rest,
        m.data = '1' :: '7' :: '2' :: '.' :: b1 :: b2 :: '.' :: rest ∧
          ((b1 = '1' && chBetween '6' '9' b2) || (b1 = '2' && chBetween '0' '9' b2) ||
            (b1 = '3' && chBetween '0' '1' b2)) = true := by
      unfold test172 at h
      split at h
      · rename_i b1 b2 rest heq
        exact ⟨b1, b2, rest, heq, h⟩
      · simp at h
    simp only [Bool.or_eq_true, Bool.and_eq_true, decide_eq_true_eq] at hcond
    have hb2ne : b2 ≠ '.' := by
      rcases hcond with (⟨_, hb⟩ | ⟨_, hb⟩) | ⟨_, hb⟩ <;>
        exact chBetween_ne_dot (by decide) hb
    have hb1ne : b1 ≠ '.' := by
      rcases hcond with (⟨rfl, _⟩ | ⟨rfl, _⟩) | ⟨rfl, _⟩ <;> decide
    constructor
    · intro q hq
      obtain ⟨hv1, hv2⟩ := parse4_two_tokens m ['1', '7', '2'] [b1, b2] rest hm
        (by decide) (by
          intro c hc
          rcases List.mem_cons.mp hc with rfl | hc
          · exact hb1ne
          · simp only [List.mem_singleton] at hc
            subst hc
            exact hb2ne) q hq
      have hview : q.2.1 = (b1.toNat - 48) * 10 + (b2.toNat - 48) := by
        rw [hv2, decVal_two]
      refine Or.inr (Or.inl ⟨by rw [hv1]; decide, ?_, ?_⟩) <;>
        rcases hcond with (⟨rfl, hb⟩ | ⟨rfl, hb⟩) | ⟨rfl, hb⟩ <;>
          simp [chBetween] at hb hview ⊢ <;> omega
    · intro w hw
      rw [parse6_none_of_dot m ['1', '7', '2'] _ hm (by decide)] at hw
      simp at hw
  · -- /^192\.168\./
    obtain ⟨rest, hm⟩ : ∃ rest,
        m.data = '1' :: '9' :: '2' :: '.' :: '1' :: '6' :: '8' :: '.' :: rest := by
      unfold test192168 at h
      split at h
      · rename_i rest heq
        exact ⟨rest, heq⟩
      · simp at h
    constructor
    · intro q hq
      obtain ⟨hv1, hv2⟩ := parse4_two_tokens m ['1', '9', '2'] ['1', '6', '8'] rest
        hm (by decide) (by decide) q hq
      exact Or.inr (Or.inr (Or.inl ⟨by rw [hv1]; decide, by rw [hv2]; decide⟩))
    · intro w hw
      rw [parse6_none_of_dot m ['1', '9', '2'] _ hm (by decide)] at hw
      simp at hw
  · -- /^127\./
    obtain ⟨rest, hm⟩ : ∃ rest, m.data = '1' :: '2' :: '7' :: '.' :: rest := by
      unfold test127 at h
      split at h
      · rename_i rest heq
        exact ⟨rest, heq⟩
      · simp at h
    constructor
    · intro q hq
      have := parse4_first_token m ['1', '2', '7'] rest hm (by decide) q hq
      exact Or.inr (Or.inr (Or.inr (Or.inl (by rw [this]; decide))))
    · intro w hw
      rw [parse6_none_of_dot m ['1', '2', '7'] rest hm (by decide)] at hw
      simp at hw
  · -- /^169\.254\./
    obtain ⟨rest, hm⟩ : ∃ rest,
        m.data = '1' :: '6' :: '9' :: '.' :: '2' :: '5' :: '4' :: '.' :: rest := by
      unfold test169254 at h
      split at h
      · rename_i rest heq
        exact ⟨rest, heq⟩
      · simp at h
    constructor
    · intro q hq
      obtain ⟨hv1, hv2⟩ := parse4_two_tokens m ['1', '6', '9'] ['2', '5', '4'] rest
        hm (by decide) (by decide) q hq
      exact Or.inr (Or.inr (Or.inr (Or.inr (Or.inl
        ⟨by rw [hv1]; decide, by rw [hv2]; decide⟩))))
    · intro w hw
      rw [parse6_none_of_dot m ['1', '6', '9'] _ hm (by decide)] at hw
      simp at hw
  · -- /^0\./
    obtain ⟨rest, hm⟩ : ∃ rest, m.data = '0' :: '.' :: rest := by
      unfold test0 at h
      split at h
      · rename_i rest heq
        exact ⟨rest, heq⟩
      · simp at h
    constructor
    · intro q hq
      have := parse4_first_token m ['0'] rest hm (by decide) q hq
      exact Or.inr (Or.inr (Or.inr (Or.inr (Or.inr (Or.inl (by rw [this]; decide))))))
    · intro w hw
      rw [parse6_none_of_dot m ['0'] rest hm (by decide)] at hw
      simp at hw
  · -- /^100\.(6[4-9]|[7-9][0-9]|1[0-1][0-9]|12[0-7])\./
    unfold test100 at h
    split at h
    · rename_i b1 b2 rest heq
      simp only [Bool.or_eq_true, Bool.and_eq_true, decide_eq_true_eq] at h
      have hb1ne : b1 ≠ '.' := by
        rcases h with ⟨rfl, _⟩ | ⟨hb, _⟩
        · decide
        · exact chBetween_ne_dot (by decide) hb
      have hb2ne : b2 ≠ '.' := by
        rcases h with ⟨_, hb⟩ | ⟨_, hb⟩ <;> exact chBetween_ne_dot (by decide) hb
      constructor
      · intro q hq
        obtain ⟨hv1, hv2⟩ := parse4_two_tokens m ['1', '0', '0'] [b1, b2] rest heq
          (by decide) (by
            intro c hc
            rcases List.mem_cons.mp hc with rfl | hc
            · exact hb1ne
            · simp only [List.mem_singleton] at hc
              subst hc
              exact hb2ne) q hq
        have hview : q.2.1 = (b1.toNat - 48) * 10 + (b2.toNat - 48) := by
          rw [hv2, decVal_two]
        have hnum : 64 ≤ q.2.1 ∧ q.2.1 ≤ 127 := by
          rw [hview]
          rcases h with ⟨rfl, hb⟩ | ⟨hb, hb'⟩
          · simp [chBetween] at hb ⊢
            omega
          · simp [chBetween] at hb hb' ⊢
            omega
        exact Or.inr (Or.inr (Or.inr (Or.inr (Or.inr (Or.inr
          ⟨by rw [hv1]; decide, hnum.1, hnum.2⟩)))))
      · intro w hw
        rw [parse6_none_of_dot m ['1', '0', '0'] _ heq (by decide)] at hw
        simp at hw
    · rename_i b1 b2 b3 rest hb3f heq
      simp only [Bool.or_eq_true, Bool.and_eq_true, decide_eq_true_eq] at h
      have hb1ne : b1 ≠ '.' := by
        rcases h with ⟨⟨rfl, _⟩, _⟩ | ⟨⟨rfl, _⟩, _⟩ <;> decide
      have hb2ne : b2 ≠ '.' := by
        rcases h with ⟨⟨_, hb⟩, _⟩ | ⟨⟨_, rfl⟩, _⟩
        · exact chBetween_ne_dot (by decide) hb
        · decide
      have hb3ne : b3 ≠ '.' := fun he => hb3f he
      constructor
      · intro q hq
        obtain ⟨hv1, hv2⟩ := parse4_two_tokens m ['1', '0', '0'] [b1, b2, b3] rest
          heq (by decide) (by
            intro c hc
            rcases List.mem_cons.mp hc with rfl | hc
            · exact hb1ne
            rcases List.mem_cons.mp hc with rfl | hc
            · exact hb2ne
            · simp only [List.mem_singleton] at hc
              subst hc
              exact hb3ne) q hq
        have hview : q.2.1 =
            ((b1.toNat - 48) * 10 + (b2.toNat - 48)) * 10 + (b3.toNat - 48) := by
          rw [hv2, decVal_three]
        have hnum : 64 ≤ q.2.1 ∧ q.2.1 ≤ 127 := by
          rw [hview]
          rcases h with ⟨⟨rfl, hb⟩, hb'⟩ | ⟨⟨rfl, rfl⟩, hb⟩
          · simp [chBetween] at hb hb' ⊢
            omega
          · simp [chBetween] at hb ⊢
            omega
        exact Or.inr (Or.inr (Or.inr (Or.inr (Or.inr (Or.inr
          ⟨by rw [hv1]; decide, hnum.1, hnum.2⟩)))))
      · intro w hw
        rw [parse6_none_of_dot m ['1', '0', '0'] _ heq (by decide)] at hw
        simp at hw
    · simp at h
  · -- /^::1$/i
    have hm : m = String.mk [':', ':', '1'] := by
      unfold testLoop6 at h
      rcases m with ⟨data⟩
      simp only [decide_eq_true_eq] at h
      rw [h]
    subst hm
    refine ⟨fun q hq => ?_, fun w hw => ?_⟩
    · rw [show parse4 (String.mk [':', ':', '1']) = none from by decide] at hq
      simp at hq
    · rw [show parse6 (String.mk [':', ':', '1']) = some 1 from by decide] at hw
      obtain rfl : w = 1 := by simpa using hw.symm
      exact Or.inl rfl
  · -- /^fe80:/i
    obtain ⟨c1, c2, c3, c4, rest, hm, hcond⟩ : ∃ c1 c2 c3 c4 rest,
        m.data = c1 :: c2 :: c3 :: c4 :: ':' :: rest ∧
          (((c1 = 'f' || c1 = 'F') && (c2 = 'e' || c2 = 'E') && c3 = '8' &&
            c4 = '0') = true) := by
      unfold testFe80 at h
      split at h
      · rename_i c1 c2 c3 c4 c5 rest heq
        simp only [Bool.and_eq_true, decide_eq_true_eq] at h
        exact ⟨c1, c2, c3, c4, rest, by rw [heq, h.2], by
          simp [h.1.1.1, h.1.1.2, h.1.2]⟩
      · simp at h
    simp only [Bool.and_eq_true, Bool.or_eq_true, decide_eq_true_eq] at hcond
    obtain ⟨⟨⟨hc1, hc2⟩, rfl⟩, rfl⟩ := hcond
    constructor
    · intro q hq
      have := parse4_head_digit m q hq c1 _ hm
      rcases hc1 with rfl | rfl <;> simp [isDigitCh, chBetween] at this
    · intro w hw
      have hdiv := parse6_first_group m c1 c2 '8' '0' rest hm
        (by rcases hc1 with rfl | rfl <;> decide)
        (by rcases hc2 with rfl | rfl <;> decide) (by decide) (by decide) w hw
      have hval : ((hexVal c1 * 16 + hexVal c2) * 16 + hexVal '8') * 16 + hexVal '0' =
          65152 := by
        rcases hc1 with rfl | rfl <;> rcases hc2 with rfl | rfl <;> decide
      rw [hval] at hdiv
      refine Or.inr (Or.inl ?_)
      have h6 : (2 : Nat) ^ 118 = 2 ^ 112 * 2 ^ 6 := by norm_num
      rw [h6, ← Nat.div_div_eq_div_mul, hdiv]
      norm_num
  · -- /^fc00:/i
    obtain ⟨c1, c2, c3, c4, rest, hm, hcond⟩ : ∃ c1 c2 c3 c4 rest,
        m.data = c1 :: c2 :: c3 :: c4 :: ':' :: rest ∧
          (((c1 = 'f' || c1 = 'F') && (c2 = 'c' || c2 = 'C') && c3 = '0' &&
            c4 = '0') = true) := by
      unfold testFc00 at h
      split at h
      · rename_i c1 c2 c3 c4 c5 rest heq
        simp only [Bool.and_eq_true, decide_eq_true_eq] at h
        exact ⟨c1, c2, c3, c4, rest, by rw [heq, h.2], by
          simp [h.1.1.1, h.1.1.2, h.1.2]⟩
      · simp at h
    simp only [Bool.and_eq_true, Bool.or_eq_true, decide_eq_true_eq] at hcond
    obtain ⟨⟨⟨hc1, hc2⟩, rfl⟩, rfl⟩ := hcond
    constructor
    · intro q hq
      have := parse4_head_digit m q hq c1 _ hm
      rcases hc1 with rfl | rfl <;> simp [isDigitCh, chBetween] at this
    · intro w hw
      have hdiv := parse6_first_group m c1 c2 '0' '0' rest hm
        (by rcases hc1 with rfl | rfl <;> decide)
        (by rcases hc2 with rfl | rfl <;> decide) (by decide) (by decide) w hw
      have hval : ((hexVal c1 * 16 + hexVal c2) * 16 + hexVal '0') * 16 + hexVal '0' =
          64512 := by
        rcases hc1 with rfl | rfl <;> rcases hc2 with rfl | rfl <;> decide
      rw [hval] at hdiv
      refine Or.inr (Or.inr ?_)
      have h9 : (2 : Nat) ^ 121 = 2 ^ 112 * 2 ^ 9 := by norm_num
      rw [h9, ← Nat.div_div_eq_div_mul, hdiv]
      norm_num
  · -- /^fd[0-9a-f]{2}:/i
    obtain ⟨c1, c2, c3, c4, rest, hm, hcond⟩ : ∃ c1 c2 c3 c4 rest,
        m.data = c1 :: c2 :: c3 :: c4 :: ':' :: rest ∧
          (((c1 = 'f' || c1 = 'F') && (c2 = 'd' || c2 = 'D') && hexB c3 &&
            hexB c4) = true) := by
      unfold testFd at h
      split at h
      · rename_i c1 c2 c3 c4 c5 rest heq
        simp only [Bool.and_eq_true, decide_eq_true_eq] at h
        exact ⟨c1, c2, c3, c4, rest, by rw [heq, h.2], by
          simp [h.1.1.1, h.1.1.2, h.1.2]⟩
      · simp at h
    simp only [Bool.and_eq_true, Bool.or_eq_true, decide_eq_true_eq] at hcond
    obtain ⟨⟨⟨hc1, hc2⟩, h3⟩, h4⟩ := hcond
    constructor
    · intro q hq
      have := parse4_head_digit m q hq c1 _ hm
      rcases hc1 with rfl | rfl <;> simp [isDigitCh, chBetween] at this
    · intro w hw
      have hdiv := parse6_first_group m c1 c2 c3 c4 rest hm
        (by rcases hc1 with rfl | rfl <;> decide)
        (by rcases hc2 with rfl | rfl <;> decide) h3 h4 w hw
      have h12 : hexVal c1 * 16 + hexVal c2 = 253 := by
        rcases hc1 with rfl | rfl <;> rcases hc2 with rfl | rfl <;> decide
      have h3v := hexVal_lt c3
      have h4v := hexVal_lt c4
      refine Or.inr (Or.inr ?_)
      have h9 : (2 : Nat) ^ 121 = 2 ^ 112 * 2 ^ 9 := by norm_num
      rw [h9, ← Nat.div_div_eq_div_mul, hdiv, h12]
      omega

/-- C9: `classify` matches the documented IPv4 rule-table boundaries
exactly at the pinned edge values (first conjunct), and consequently for
all text lines, `extract` followed by `classify` never returns as private
an address outside the documented ranges (second conjunct): an extracted
address classified private that denotes an IPv4 value denotes one inside
`10/8`, `172.16/12`, `192.168/16`, `127/8`, `169.254/16`, `0/8` or
`100.64/10`, and one that denotes an IPv6 value denotes `::1` or a value
inside `fe80::/10` or `fc00::/7`. -/
theorem isPrivateIP_doc_ranges :
    (isPrivateIP "10.255.255.255" = true ∧ isPrivateIP "100.63.0.1" = false ∧
     isPrivateIP "100.64.0.1" = true ∧ isPrivateIP "100.127.255.255" = true ∧
     isPrivateIP "100.128.0.1" = false ∧ isPrivateIP "172.15.0.1" = false ∧
     isPrivateIP "172.16.0.1" = true ∧ isPrivateIP "172.31.255.255" = true ∧
     isPrivateIP "172.32.0.1" = false) ∧
    (∀ (line m : String), m ∈ extractIPs line → isPrivateIP m = true →
      (∀ q, parse4 m = some q → in4 q) ∧ (∀ w, parse6 m = some w → in6 w)) :=
  ⟨by decide, fun _ m _ h => isPrivateIP_sound m h⟩

/-- C9, witness: a concrete private extraction inside `10/8`. -/
theorem isPrivateIP_doc_ranges_witness :
    (∀ q, parse4 "10.0.0.1" = some q → in4 q) ∧
      (∀ w, parse6 "10.0.0.1" = some w → in6 w) :=
  isPrivateIP_doc_ranges.2 "from 10.0.0.1 port" "10.0.0.1" (by decide) (by decide)

/-! ## Claim C10: the sentinel contact cannot be parsed, and records
bearing it are treated as unresolved -/

theorem findSome_mem {α β : Type} (f : α → Option β) :
    ∀ (l : List α) (b : β), l.findSome? f = some b → ∃ a ∈ l, f a = some b := by
  intro l
  induction l with
  | nil => intro b h; simp [List.findSome?] at h
  | cons a l ih =>
    intro b h
    rcases hfa : f a with _ | v
    · simp only [List.findSome?, hfa] at h
      obtain ⟨a', ha', hfa'⟩ := ih b h
      exact ⟨a', List.mem_cons_of_mem a ha', hfa'⟩
    · simp only [List.findSome?, hfa] at h
      obtain rfl : v = b := by simpa using h
      exact ⟨a, List.mem_cons_self a l, hfa⟩

theorem reMatch_cat_mem (a b : RE) (prev : Option Char) (s : List Char)
    (x : List Char × Option Char × List Char)
    (hx : x ∈ reMatch (.cat a b) prev s) :
    ∃ y ∈ reMatch a prev s, ∃ z ∈ reMatch b y.2.1 y.2.2, x.1 = y.1 ++ z.1 := by
  simp only [reMatch, List.mem_flatMap, List.mem_map] at hx
  obtain ⟨y, hy, z, hz, rfl⟩ := hx
  exact ⟨y, hy, z, hz, rfl⟩

theorem reMatch_cls_mem (p : Char → Bool) (prev : Option Char) (s : List Char)
    (x : List Char × Option Char × List Char)
    (hx : x ∈ reMatch (.cls p) prev s) : ∃ c, x.1 = [c] ∧ p c = true := by
  cases s with
  | nil => simp [reMatch] at hx
  | cons c rest =>
    simp only [reMatch] at hx
    by_cases hp : p c
    · simp only [hp, if_pos, List.mem_singleton] at hx
      subst hx
      exact ⟨c, rfl, hp⟩
    · simp [hp] at hx

/-- Whatever the email group of an abuse pattern captures contains a dot:
the pattern requires `\.` between the domain and the final letters. -/
theorem emailRE_dot (prev : Option Char) (s : List Char) :
    ∀ x ∈ reMatch emailRE prev s, '.' ∈ x.1 := by
  intro x hx
  obtain ⟨y1, _, z1, hz1, he1⟩ := reMatch_cat_mem _ _ _ _ x hx
  obtain ⟨y2, _, z2, hz2, he2⟩ := reMatch_cat_mem _ _ _ _ z1 hz1
  obtain ⟨y3, _, z3, hz3, he3⟩ := reMatch_cat_mem _ _ _ _ z2 hz2
  obtain ⟨y4, hy4, z4, _, he4⟩ := reMatch_cat_mem _ _ _ _ z3 hz3
  obtain ⟨c, hc1, hc2⟩ := reMatch_cls_mem _ _ _ y4 hy4
  obtain rfl : c = '.' := by simpa using hc2
  rw [he1, he2, he3, he4, hc1]
  simp

theorem matchCapAt_mem (a b c : RE) (prev : Option Char) (s cap : List Char)
    (h : matchCapAt a b c prev s = some cap) :
    ∃ prev' s' y, y ∈ reMatch b prev' s' ∧ cap = y.1 := by
  unfold matchCapAt at h
  obtain ⟨x, _, h2⟩ := findSome_mem _ _ _ h
  obtain ⟨y, hy, h3⟩ := findSome_mem _ _ _ h2
  rcases hh : (reMatch c y.2.1 y.2.2).head? with _ | z
  · rw [hh] at h3
    simp at h3
  · rw [hh] at h3
    obtain rfl : cap = y.1 := by simpa using h3.symm
    exact ⟨x.2.1, x.2.2, y, hy, rfl⟩

theorem searchCap_mem (a b c : RE) :
    ∀ (prev : Option Char) (s cap : List Char),
      searchCap a b c prev s = some cap →
      ∃ prev' s' y, y ∈ reMatch b prev' s' ∧ cap = y.1 := by
  intro prev s
  induction s generalizing prev with
  | nil => exact fun cap h => matchCapAt_mem a b c prev [] cap h
  | cons ch rest ih =>
    intro cap h
    unfold searchCap at h
    rcases hm : matchCapAt a b c prev (ch :: rest) with _ | r
    · rw [hm] at h
      exact ih (some ch) cap h
    · rw [hm] at h
      obtain rfl : r = cap := by simpa using h
      exact matchCapAt_mem a b c prev (ch :: rest) r hm

/-- No WHOIS output can ever be parsed to the literal sentinel contact:
the email pattern demands a dot inside the domain part, and
`unknown@unknown` contains none. -/
theorem extractAbuseEmail_ne_sentinel (s : String) :
    extractAbuseEmail s ≠ some "unknown@unknown" := by
  intro h
  unfold extractAbuseEmail at h
  obtain ⟨line, _, h2⟩ := findSome_mem _ _ _ h
  obtain ⟨pat, hpat, h3⟩ := findSome_mem _ _ _ h2
  rcases hsc : searchCap pat.1 pat.2.1 pat.2.2 none line.data with _ | cap
  · rw [hsc] at h3
    simp at h3
  · rw [hsc] at h3
    have hcapl : String.mk (cap.map Char.toLower) = "unknown@unknown" := by
      simpa using h3
    have hB : pat.2.1 = emailRE := by
      simp only [abusePatterns, List.mem_cons, List.not_mem_nil, or_false] at hpat
      rcases hpat with rfl | rfl | rfl | rfl | rfl <;> rfl
    rw [hB] at hsc
    obtain ⟨prev', s', y, hy, rfl⟩ := searchCap_mem _ _ _ none line.data cap hsc
    have hdot : '.' ∈ y.1 := emailRE_dot prev' s' y hy
    have hdotl : '.' ∈ y.1.map Char.toLower := by
      have : Char.toLower '.' ∈ y.1.map Char.toLower := List.mem_map_of_mem _ hdot
      simpa using this
    have : y.1.map Char.toLower = "unknown@unknown".data :=
      congrArg String.data hcapl
    rw [this] at hdotl
    exact absurd hdotl (by decide)

/-- Emails produced by `generateAllEmails` are never addressed to the
sentinel, no matter the accumulator the loop starts from. -/
theorem generateAllEmails_to_aux (ipLogMap : List (String × List String))
    (options : GenOptions) (dateStr isoStr : String) :
    ∀ (abuseGroups : List (String × List WhoisRecord)) (acc : List EmailMsg),
      (∀ e ∈ acc, e.«to» ≠ "unknown@unknown") →
      ∀ e ∈ abuseGroups.foldl
          (fun emails g =>
            if g.1 = "unknown@unknown" then emails
            else emails ++ [generateEmail g.1 g.2 ipLogMap options dateStr isoStr])
          acc,
        e.«to» ≠ "unknown@unknown" := by
  intro abuseGroups
  induction abuseGroups with
  | nil => exact fun acc hacc e he => hacc e he
  | cons g groups ih =>
    intro acc hacc e he
    simp only [List.foldl_cons] at he
    by_cases hg : g.1 = "unknown@unknown"
    · rw [if_pos hg] at he
      exact ih acc hacc e he
    · rw [if_neg hg] at he
      refine ih _ ?_ e he
      intro e' he'
      rcases List.mem_append.mp he' with h | h
      · exact hacc e' h
      · simp only [List.mem_singleton] at h
        subst h
        exact hg

/-- C10, counterexample: the natural directory texts carrying the literal
contact `unknown@unknown` do not parse to it — they do not parse at all,
since the email pattern requires a dot in the domain. -/
theorem extractAbuseEmail_unknown_unknown_counterexample :
    extractAbuseEmail "abuse: unknown@unknown" ≠ some "unknown@unknown" ∧
    extractAbuseEmail "% Abuse contact for 1.2.3.4 is 'unknown@unknown'" ≠
      some "unknown@unknown" ∧
    extractAbuseEmail "OrgAbuseEmail: unknown@unknown" ≠ some "unknown@unknown" :=
  ⟨extractAbuseEmail_ne_sentinel _, extractAbuseEmail_ne_sentinel _,
   extractAbuseEmail_ne_sentinel _⟩

/-- C10, amended: no directory text ever parses to the literal lower-cased
contact `unknown@unknown` (the email pattern requires a dot in the domain),
so the aliasing posited by the claim is unreachable through parsing; but a
Lookup Record whose abuse-contact field carries that literal, however
constructed, is indeed indistinguishable from an unresolved record: `group`
keys it under the sentinel key, `compose_all` addresses no report to it,
and the addresses under the sentinel key each appear in the unresolved
summary. -/
theorem sentinel_alias_behavior :
    (∀ s : String, extractAbuseEmail s ≠ some "unknown@unknown") ∧
    (∀ r : WhoisRecord, r.abuseEmail = some "unknown@unknown" →
      groupKey r = "unknown@unknown") ∧
    (∀ (abuseGroups : List (String × List WhoisRecord))
        (ipLogMap : List (String × List String)) (options : GenOptions)
        (dateStr isoStr : String),
      ∀ e ∈ generateAllEmails abuseGroups ipLogMap options dateStr isoStr,
        e.«to» ≠ "unknown@unknown") ∧
    (∀ (abuseGroups : List (String × List WhoisRecord)) (ug : List WhoisRecord),
      mfind abuseGroups "unknown@unknown" = some ug → ug ≠ [] →
      generateUnknownIPsSummary abuseGroups =
        some (String.intercalate "\n" (unknownSummaryLines ug)) ∧
      ∀ r ∈ ug, ("  " ++ r.ip) ∈ unknownSummaryLines ug) := by
  refine ⟨extractAbuseEmail_ne_sentinel, fun r hr => by simp [groupKey, hr],
    fun abuseGroups ipLogMap options dateStr isoStr =>
      generateAllEmails_to_aux ipLogMap options dateStr isoStr abuseGroups []
        (by simp),
    fun abuseGroups ug hfind hne => ?_⟩
  constructor
  · unfold generateUnknownIPsSummary
    rw [hfind]
    simp only []
    rw [if_neg (by simpa [List.length_eq_zero] using hne)]
  · intro r hr
    unfold unknownSummaryLines
    refine List.mem_append.mpr (Or.inl (List.mem_append.mpr (Or.inr ?_)))
    exact List.mem_flatMap.mpr ⟨r, hr, List.mem_cons_self _ _⟩

/-- C10, witness: a record carrying the literal sentinel contact. -/
theorem sentinel_alias_behavior_witness :
    (groupKey sentinelRecord = "unknown@unknown") ∧
    ((generateEmail "abuse@host.example" [sentinelRecord] [] {} "d" "i").«to» ≠
      "unknown@unknown") ∧
    (("  " ++ "1.2.3.4") ∈ unknownSummaryLines [sentinelRecord]) :=
  ⟨sentinel_alias_behavior.2.1 sentinelRecord rfl,
   sentinel_alias_behavior.2.2.1 [("abuse@host.example", [sentinelRecord])]
     [] {} "d" "i" _ (List.mem_singleton.mpr rfl),
   (sentinel_alias_behavior.2.2.2 [("unknown@unknown", [sentinelRecord])]
     [sentinelRecord] rfl (by simp)).2 sentinelRecord
     (List.mem_singleton.mpr rfl)⟩

end AbuseReporter
